import Mathlib

/-!
# Verification of the lpSolver parsing and array-building pipeline

Shallow embedding of `src/LP/src/lpSolver/parsing.py` and
`src/LP/src/lpSolver/model_arrays.py`.

Modelling conventions:
* Python floats are idealized as exact rationals extended with the three
  non-finite values (`inf`, `-inf`, `nan`); rounding and overflow are not
  modelled.  Arithmetic and comparisons on `PFloat` follow IEEE-754 semantics
  as exposed by Python (`nan` compares false with everything, etc.).
* `float(str)` (the Python builtin) is modelled by `pyFloat`, following the
  grammar Python accepts: optional surrounding whitespace, optional sign,
  then either `inf`/`infinity`/`nan` (case-insensitively) or a decimal
  literal with optional fraction and exponent, with single underscores
  allowed between digits.  Only ASCII digits are modelled.
* CSV reading and the file system are outside the embedding: the parsing
  functions take the lists of records that `_read_csv_dicts` would produce
  (one record per data line, fields already trimmed by the CSV layer).
* `ParseError` is modelled by the `Except String` monad; the exact message
  texts are not part of any claim and are abbreviated.
* Python `dict`s (which preserve insertion order) are modelled as
  association lists, with updates in place and new keys appended at the end.
-/

/-! ## Kernel-computable rational arithmetic

Batteries marks `Rat.add`, `Rat.mul`, `Rat.inv` irreducible, which blocks
evaluation by `decide`; the following equivalents are built from the
reducible smart constructor `mkRat` and proved equal to the field
operations of `ℚ`. -/

/-- The rational number `n`. -/
def ratOfNat (n : Nat) : ℚ := Rat.ofInt (Int.ofNat n)

/-- Kernel-computable addition on `ℚ`. -/
def qadd (a b : ℚ) : ℚ :=
  mkRat (a.num * (b.den : Int) + b.num * (a.den : Int)) (a.den * b.den)

/-- Kernel-computable multiplication on `ℚ`. -/
def qmul (a b : ℚ) : ℚ := mkRat (a.num * b.num) (a.den * b.den)

/-- Kernel-computable inverse on `ℚ`. -/
def qinv (b : ℚ) : ℚ :=
  mkRat (if b.num < 0 then -(b.den : Int) else (b.den : Int)) b.num.natAbs

/-- Kernel-computable division on `ℚ`. -/
def qdiv (a b : ℚ) : ℚ := qmul a (qinv b)

/-- The rational number `10 ^ n`. -/
def pow10 (n : Nat) : ℚ := ratOfNat (Nat.pow 10 n)

theorem ratOfNat_eq (n : Nat) : ratOfNat n = (n : ℚ) := rfl

theorem qadd_eq (a b : ℚ) : qadd a b = a + b := by
  rw [qadd, Rat.mkRat_eq_div]
  have ha : (a.den : ℚ) ≠ 0 := Nat.cast_ne_zero.mpr a.den_nz
  have hb : (b.den : ℚ) ≠ 0 := Nat.cast_ne_zero.mpr b.den_nz
  have h1 : (a.num : ℚ) = a * a.den := (div_eq_iff ha).mp (Rat.num_div_den a)
  have h2 : (b.num : ℚ) = b * b.den := (div_eq_iff hb).mp (Rat.num_div_den b)
  push_cast
  rw [div_eq_iff (mul_ne_zero ha hb), h1, h2]
  ring

theorem qmul_eq (a b : ℚ) : qmul a b = a * b := by
  rw [qmul, Rat.mkRat_eq_div]
  push_cast
  conv_rhs => rw [← Rat.num_div_den a, ← Rat.num_div_den b]
  rw [div_mul_div_comm]

theorem qinv_eq (b : ℚ) : qinv b = b⁻¹ := by
  rw [qinv, Rat.inv_def', Rat.divInt_eq_div, Rat.mkRat_eq_div]
  rcases lt_trichotomy b.num 0 with h | h | h
  · rw [if_pos h]
    rw [Int.cast_natAbs]
    push_cast
    rw [abs_of_neg (by exact_mod_cast h)]
    rw [neg_div_neg_eq]
  · rw [if_neg (by omega)]
    have hb0 : b = 0 := Rat.num_eq_zero.mp h
    subst hb0
    norm_num
  · rw [if_neg (by omega)]
    rw [Int.cast_natAbs]
    push_cast
    rw [abs_of_pos (by exact_mod_cast h)]

theorem qdiv_eq (a b : ℚ) : qdiv a b = a / b := by
  rw [qdiv, qmul_eq, qinv_eq, div_eq_mul_inv]

theorem qneg_eq (a : ℚ) : Rat.neg a = -a := rfl

theorem rat_lt_iff_blt (a b : ℚ) : a < b ↔ Rat.blt a b = true := Iff.rfl

theorem rat_le_iff_blt (a b : ℚ) : a ≤ b ↔ Rat.blt b a = false := Iff.rfl

/-- The value domain of Python floats, idealized: exact rationals plus the
three non-finite values. -/
inductive PFloat where
  | fin (q : ℚ)
  | pinf
  | ninf
  | nan
deriving DecidableEq, Repr

namespace PFloat

/-- IEEE negation as exposed by Python unary minus. -/
def neg : PFloat → PFloat
  | fin q => fin (Rat.neg q)
  | pinf => ninf
  | ninf => pinf
  | nan => nan

/-- IEEE addition as exposed by Python `+` (idealized: no rounding or
overflow on finite values). -/
def add : PFloat → PFloat → PFloat
  | nan, _ => nan
  | _, nan => nan
  | pinf, ninf => nan
  | ninf, pinf => nan
  | pinf, _ => pinf
  | _, pinf => pinf
  | ninf, _ => ninf
  | _, ninf => ninf
  | fin a, fin b => fin (qadd a b)

/-- Python binary `-` on floats. -/
def sub (a b : PFloat) : PFloat := add a (neg b)

/-- Python `abs` on floats. -/
def abs : PFloat → PFloat
  | fin q => fin (if Rat.blt q (ratOfNat 0) then Rat.neg q else q)
  | pinf => pinf
  | ninf => pinf
  | nan => nan

/-- Python `<` on floats: any comparison involving `nan` is false. -/
def blt : PFloat → PFloat → Bool
  | nan, _ => false
  | _, nan => false
  | fin a, fin b => Rat.blt a b
  | fin _, pinf => true
  | fin _, ninf => false
  | ninf, fin _ => true
  | ninf, pinf => true
  | ninf, ninf => false
  | pinf, _ => false

/-- Python `==` on floats: `nan` is not equal to anything, even itself. -/
def beq : PFloat → PFloat → Bool
  | nan, _ => false
  | _, nan => false
  | fin a, fin b => decide (a = b)
  | pinf, pinf => true
  | ninf, ninf => true
  | _, _ => false

end PFloat

/-- ASCII whitespace stripped by Python `str.strip()` and by `float()`. -/
def isPySpace (c : Char) : Bool :=
  c = ' ' || c = '\t' || c = '\n' || c = '\x0d' || c = '\x0b' || c = '\x0c'

/-- Python `str.strip()` on a character list. -/
def pyStrip (l : List Char) : List Char :=
  ((l.dropWhile isPySpace).reverse.dropWhile isPySpace).reverse

/-- Python `str.strip()` on a string. -/
def pyStripStr (s : String) : String := String.mk (pyStrip s.data)

/-- Python `str.split(sep)` for a one-character separator. -/
def splitOnChar (sep : Char) : List Char → List (List Char)
  | [] => [[]]
  | c :: cs =>
    let r := splitOnChar sep cs
    if c = sep then [] :: r
    else
      match r with
      | h :: t => (c :: h) :: t
      | [] => [[c]]

/-- Numeric value of an ASCII digit character. -/
def digitVal (c : Char) : Nat := c.toNat - '0'.toNat

/-- Consume a maximal run of digits possibly separated by single
underscores (Python numeric-literal grouping); returns the digits with
underscores removed, and the rest of the input. -/
def readDigitsAux : List Char → (List Char × List Char)
  | [] => ([], [])
  | c :: cs =>
    if c.isDigit then
      let (d, r) := readDigitsAux cs
      (c :: d, r)
    else if c = '_' then
      match cs with
      | [] => ([], [c])
      | d :: cs2 =>
        if d.isDigit then
          let (ds, r) := readDigitsAux cs2
          (d :: ds, r)
        else ([], c :: cs)
    else ([], c :: cs)

/-- A digit group must start with a digit (an underscore may not lead). -/
def readDigits : List Char → Option (List Char × List Char)
  | [] => none
  | c :: cs => if c.isDigit then some (readDigitsAux (c :: cs)) else none

/-- Decimal value of a digit string. -/
def digitsToNat (l : List Char) : Nat :=
  l.foldl (fun a c => 10 * a + digitVal c) 0

/-- Parse the mantissa part of a Python float literal:
`digits [. digits?] | . digits`. -/
def parseMantissa (l : List Char) : Option (ℚ × List Char) :=
  match readDigits l with
  | some (ds, rest) =>
    match rest with
    | '.' :: r2 =>
      match readDigits r2 with
      | some (fs, r3) =>
        some (qadd (ratOfNat (digitsToNat ds)) (qdiv (ratOfNat (digitsToNat fs)) (pow10 fs.length)), r3)
      | none => some (ratOfNat (digitsToNat ds), r2)
    | _ => some (ratOfNat (digitsToNat ds), rest)
  | none =>
    match l with
    | '.' :: r2 =>
      match readDigits r2 with
      | some (fs, r3) => some (qdiv (ratOfNat (digitsToNat fs)) (pow10 fs.length), r3)
      | none => none
    | _ => none

/-- Parse an optional exponent `(e|E) sign? digits`, returned as a sign flag
and a magnitude.  When the input does not start with an exponent marker,
the exponent is 0 and nothing is consumed. -/
def parseExp (l : List Char) : Option ((Bool × Nat) × List Char) :=
  match l with
  | [] => some ((false, 0), [])
  | c :: cs =>
    if c = 'e' || c = 'E' then
      let (eneg, cs2) :=
        match cs with
        | '+' :: r => (false, r)
        | '-' :: r => (true, r)
        | r => (false, r)
      match readDigits cs2 with
      | some (ds, r3) => some ((eneg, digitsToNat ds), r3)
      | none => none
    else some ((false, 0), c :: cs)

/-- Scale a rational by a signed power of ten. -/
def scalePow10 (eneg : Bool) (emag : Nat) (q : ℚ) : ℚ :=
  if eneg then qdiv q (pow10 emag) else qmul q (pow10 emag)

/-- Parse an unsigned Python numeric float literal, requiring the whole
input to be consumed. -/
def pyNumber (l : List Char) : Option ℚ :=
  match parseMantissa l with
  | none => none
  | some (m, r1) =>
    match parseExp r1 with
    | none => none
    | some ((eneg, emag), r2) => if r2 = [] then some (scalePow10 eneg emag m) else none

/-- Python `float(str)` on a character list: strip whitespace, read an
optional sign, then accept `inf`/`infinity`/`nan` case-insensitively or a
numeric literal. -/
def pyFloatChars (l0 : List Char) : Option PFloat :=
  let l := pyStrip l0
  let (sneg, l1) :=
    match l with
    | '+' :: r => (false, r)
    | '-' :: r => (true, r)
    | r => (false, r)
  let low := l1.map Char.toLower
  if low = "inf".data || low = "infinity".data then
    some (if sneg then PFloat.ninf else PFloat.pinf)
  else if low = "nan".data then some PFloat.nan
  else
    match pyNumber l1 with
    | some q => some (PFloat.fin (if sneg then Rat.neg q else q))
    | none => none

/-- Python `float(str)`. -/
def pyFloat (s : String) : Option PFloat := pyFloatChars s.data

/-- Model of `_parse_float` with `allow_empty=False`: `float(value)`, turning a
conversion failure into a `ParseError`. -/
def parseFloatReq (value : String) : Except String PFloat :=
  match pyFloat value with
  | some v => Except.ok v
  | none => Except.error "doit etre un nombre"

/-- Model of `_parse_float` with `allow_empty=True`: an empty field is `None`,
otherwise `float(value)` with failure turned into `ParseError`. -/
def parseFloatOpt (value : String) : Except String (Option PFloat) :=
  if value = "" then Except.ok none
  else
    match pyFloat value with
    | some v => Except.ok (some v)
    | none => Except.error "doit etre un nombre"

/-- Whether an `Except` computation failed (a `ParseError` was raised). -/
def isError {α : Type} : Except String α → Bool
  | Except.ok _ => false
  | Except.error _ => true

/-- The successful result of an `Except` computation, when there is one. -/
def okValue {α : Type} : Except String α → Option α
  | Except.ok a => some a
  | Except.error _ => none

example : pyFloat "- 3" = none := by decide
example : pyFloat "-3" = some (PFloat.fin (mkRat (-3) 1)) := by decide
example : pyFloat " 5 " = some (PFloat.fin (mkRat 5 1)) := by decide
example : pyFloat "inf" = some PFloat.pinf := by decide
example : pyFloat "-inf" = some PFloat.ninf := by decide
example : pyFloat "Infinity" = some PFloat.pinf := by decide
example : pyFloat "nan" = some PFloat.nan := by decide
example : pyFloat "1_0" = some (PFloat.fin (mkRat 10 1)) := by decide
example : pyFloat "1__0" = none := by decide
example : pyFloat "1_" = none := by decide
example : pyFloat "_1" = none := by decide
example : pyFloat "1." = some (PFloat.fin (mkRat 1 1)) := by decide
example : pyFloat ".5" = some (PFloat.fin (mkRat 1 2)) := by decide
example : pyFloat "." = none := by decide
example : pyFloat "1.e5" = some (PFloat.fin (mkRat 100000 1)) := by decide
example : pyFloat "1.2e3" = some (PFloat.fin (mkRat 1200 1)) := by decide
example : pyFloat "5e" = none := by decide
example : pyFloat "" = none := by decide
example : pyFloat "+5" = some (PFloat.fin (mkRat 5 1)) := by decide
example : pyFloat "−3" = none := by decide
example : pyFloat "1.2" = some (PFloat.fin (mkRat 6 5)) := by decide
example : pyFloat "2.0e-3" = some (PFloat.fin (mkRat 1 500)) := by decide

/-- Decidable equality for `Except`, so concrete parser outcomes can be
settled by `decide`. -/
instance {e a : Type} [DecidableEq e] [DecidableEq a] : DecidableEq (Except e a) := fun x y =>
  match x, y with
  | Except.ok u, Except.ok v =>
    if h : u = v then Decidable.isTrue (by rw [h])
    else Decidable.isFalse (fun he => h (Except.ok.inj he))
  | Except.error u, Except.error v =>
    if h : u = v then Decidable.isTrue (by rw [h])
    else Decidable.isFalse (fun he => h (Except.error.inj he))
  | Except.ok _, Except.error _ => Decidable.isFalse (fun he => Except.noConfusion he)
  | Except.error _, Except.ok _ => Decidable.isFalse (fun he => Except.noConfusion he)

/-! ## `parse_linear_expr` -/

/-- A character that can start an identifier (`[A-Za-z_]`). -/
def isIdStart (c : Char) : Bool := c.isAlpha || c = '_'

/-- A character that can continue an identifier (`[A-Za-z0-9_]`). -/
def isIdCont (c : Char) : Bool := c.isAlphanum || c = '_'

/-- Model of `_VAR_NAME_RE.search`: find the first (leftmost, then greedy) match of
`[A-Za-z_][A-Za-z0-9_]*`, returning the text before the match, the match,
and the text after it. -/
def findId : List Char → Option (List Char × List Char × List Char)
  | [] => none
  | c :: cs =>
    if isIdStart c then some ([], c :: cs.takeWhile isIdCont, cs.dropWhile isIdCont)
    else
      match findId cs with
      | some (p, m, r) => some (c :: p, m, r)
      | none => none

/-- The update `coeffs[var] = coeffs.get(var, 0.0) + coeff` on an insertion-ordered
dictionary: update an existing key in place, or append a new one. -/
def addCoeff (coeffs : List (String × PFloat)) (v : String) (c : PFloat) :
    List (String × PFloat) :=
  match coeffs with
  | [] => [(v, PFloat.add (PFloat.fin (ratOfNat 0)) c)]
  | (v', c') :: rest =>
    if v' = v then (v', PFloat.add c' c) :: rest
    else (v', c') :: addCoeff rest v c

/-- Process one additive term of a linear expression (the body of the
`for term in parts` loop of `parse_linear_expr`). -/
def termStep (coeffs : List (String × PFloat)) (constSum : PFloat) (term : List Char) :
    Except String (List (String × PFloat) × PFloat) :=
  match findId term with
  | some (p, m, _r) =>
    let var := String.mk m
    let coeffStr := pyStrip (p.filter (fun c => c ≠ '*'))
    let coeffE : Except String PFloat :=
      if coeffStr = [] ∨ coeffStr = ['+'] then Except.ok (PFloat.fin (ratOfNat 1))
      else if coeffStr = ['-'] then Except.ok (PFloat.fin (Rat.neg (ratOfNat 1)))
      else
        match pyFloatChars coeffStr with
        | some q => Except.ok q
        | none => Except.error "Terme invalide (coeff non numerique)"
    match coeffE with
    | Except.ok coeff => Except.ok (addCoeff coeffs var coeff, constSum)
    | Except.error e => Except.error e
  | none =>
    match pyFloatChars (term.filter (fun c => c ≠ '*')) with
    | some q => Except.ok (coeffs, PFloat.add constSum q)
    | none => Except.error "Terme invalide (ni variable ni constante)"

/-- Fold `termStep` over the list of terms. -/
def termFold : List (List Char) → List (String × PFloat) → PFloat →
    Except String (List (String × PFloat) × PFloat)
  | [], coeffs, constSum => Except.ok (coeffs, constSum)
  | t :: ts, coeffs, constSum =>
    match termStep coeffs constSum t with
    | Except.ok (c2, s2) => termFold ts c2 s2
    | Except.error e => Except.error e

/-- Model of `parse_linear_expr`: normalize the Unicode minus, rewrite `-` as `+-`,
split on `+`, process each term, drop zero coefficients, and reject an
expression with no variables and a zero constant. -/
def parse_linear_expr (expr : String) : Except String (List (String × PFloat) × PFloat) :=
  let s1 := expr.data.map (fun c => if c = '−' then '-' else c)
  let s2 := s1.flatMap (fun c => if c = '-' then ['+', '-'] else [c])
  let parts := ((splitOnChar '+' s2).map pyStrip).filter (fun p => p ≠ [])
  if parts = [] then Except.error "Expression invalide"
  else
    match termFold parts [] (PFloat.fin (ratOfNat 0)) with
    | Except.error e => Except.error e
    | Except.ok (coeffs0, constSum) =>
      let coeffs := coeffs0.filter (fun p => PFloat.blt (PFloat.fin (ratOfNat 0)) (PFloat.abs p.2))
      if coeffs = [] ∧ PFloat.beq constSum (PFloat.fin (ratOfNat 0)) = true then
        Except.error "Expression sans variables ni constantes"
      else Except.ok (coeffs, constSum)

example : isError (parse_linear_expr "2*x + y - 3") = true := by decide
example : parse_linear_expr "-x" =
    Except.ok ([("x", PFloat.fin (mkRat (-1) 1))], PFloat.fin 0) := by decide
example : parse_linear_expr "5" = Except.ok ([], PFloat.fin (mkRat 5 1)) := by decide
example : isError (parse_linear_expr "x - x") = true := by decide
example : parse_linear_expr "x*2" =
    Except.ok ([("x", PFloat.fin (mkRat 1 1))], PFloat.fin 0) := by decide
example : parse_linear_expr "1.2e3*a" =
    Except.ok ([("e3", PFloat.fin (mkRat 6 5))], PFloat.fin 0) := by decide
example : parse_linear_expr "2*x + y" =
    Except.ok ([("x", PFloat.fin (mkRat 2 1)), ("y", PFloat.fin (mkRat 1 1))],
      PFloat.fin 0) := by decide
example : parse_linear_expr "2*x + y -3" =
    Except.ok ([("x", PFloat.fin (mkRat 2 1)), ("y", PFloat.fin (mkRat 1 1))],
      PFloat.fin (mkRat (-3) 1)) := by decide
example : isError (parse_linear_expr "x + 2y - 3*z + 5") = true := by decide
example : parse_linear_expr "x + 2y -3*z + 5" =
    Except.ok ([("x", PFloat.fin (mkRat 1 1)), ("y", PFloat.fin (mkRat 2 1)),
      ("z", PFloat.fin (mkRat (-3) 1))], PFloat.fin (mkRat 5 1)) := by decide

/-! ## Table records and `parse_data_dir`

The CSV layer (`_read_csv_dicts`) is outside the embedding: each parsing
function takes the list of records read from its table, fields already
trimmed.  Data lines are numbered from 2 (line 1 is the header), which only
matters for the auto-generated `c_<line>` constraint names. -/

/-- Python `str.lower()` (ASCII characters; the inputs the claims involve
are ASCII). -/
def strToLower (s : String) : String := String.mk (s.data.map Char.toLower)

/-- One record of `variables.csv` (`name, low, up, type`). -/
structure VarRow where
  name : String
  low : String
  up : String
  type : String
deriving DecidableEq, Repr

/-- One record of `objective.csv` / `objectives.csv` (`var, coeff, sense`). -/
structure ObjRow where
  var : String
  coeff : String
  sense : String
deriving DecidableEq, Repr

/-- One record of `constraints.csv` (`name, expr, sense, rhs`). -/
structure ConRow where
  name : String
  expr : String
  sense : String
  rhs : String
deriving DecidableEq, Repr

/-- The per-variable data stored by the parser
(`{"low": ..., "up": ..., "type": ...}`). -/
structure VarInfo where
  low : PFloat
  up : Option PFloat
  type : String
deriving DecidableEq, Repr

/-- The parsed objective (`{"sense": ..., "coeffs": ...}`). -/
structure Objective where
  sense : String
  coeffs : List (String × PFloat)
deriving DecidableEq, Repr

/-- One parsed constraint record. -/
structure Constraint where
  name : String
  original_name : String
  sense : String
  rhs : PFloat
  coeffs : List (String × PFloat)
  raw_expr : String
  raw_rhs : PFloat
  moved_const : PFloat
deriving DecidableEq, Repr

/-- The parsed model returned by `parse_data_dir`. -/
structure Model where
  vars : List (String × VarInfo)
  objective : Objective
  constraints : List Constraint
deriving DecidableEq, Repr

/-- The set of accepted variable types. -/
def allowedTypes : List String := ["continuous", "integer", "binary"]

/-- The body of the `variables.csv` row loop: validate the name, the type
and the bounds, and append the variable to the insertion-ordered map. -/
def processVarRow (vars : List (String × VarInfo)) (row : VarRow) :
    Except String (List (String × VarInfo)) :=
  if row.name = "" then Except.error "'name' vide"
  else if (vars.lookup row.name).isSome then Except.error "variable dupliquee"
  else
    let vtype := if row.type ≠ "" then strToLower row.type else "continuous"
    if vtype ∈ allowedTypes then
      match parseFloatOpt row.low with
      | Except.error e => Except.error e
      | Except.ok lowOpt =>
        match parseFloatOpt row.up with
        | Except.error e => Except.error e
        | Except.ok upOpt =>
          let low := lowOpt.getD (PFloat.fin (ratOfNat 0))
          if (match upOpt with
              | some u => PFloat.blt u low
              | none => false) then
            Except.error "up < low"
          else Except.ok (vars ++ [(row.name, ⟨low, upOpt, vtype⟩)])
    else Except.error "type inconnu"

/-- The `variables.csv` row loop. -/
def varsLoop : List VarRow → List (String × VarInfo) →
    Except String (List (String × VarInfo))
  | [], acc => Except.ok acc
  | row :: rows, acc =>
    match processVarRow acc row with
    | Except.ok acc2 => varsLoop rows acc2
    | Except.error e => Except.error e

/-- Parse the `variables.csv` table. -/
def parseVariables (rows : List VarRow) : Except String (List (String × VarInfo)) :=
  match varsLoop rows [] with
  | Except.error e => Except.error e
  | Except.ok vars =>
    if vars = [] then Except.error "aucune variable declaree" else Except.ok vars

/-- The body of the objective row loop: validate the variable reference,
the coefficient and the sense, and accumulate the coefficient map and the
set of senses seen. -/
def processObjRow (vars : List (String × VarInfo))
    (st : List (String × PFloat) × List String) (row : ObjRow) :
    Except String (List (String × PFloat) × List String) :=
  if row.var = "" then Except.error "'var' vide"
  else if (vars.lookup row.var).isNone then Except.error "variable non declaree"
  else
    match parseFloatReq row.coeff with
    | Except.error e => Except.error e
    | Except.ok coeff =>
      let sense := if row.sense ≠ "" then strToLower row.sense else ""
      if sense = "min" ∨ sense = "max" then
        if (st.1.lookup row.var).isSome then Except.error "variable dupliquee dans objectif"
        else
          Except.ok (st.1 ++ [(row.var, coeff)],
            if sense ∈ st.2 then st.2 else st.2 ++ [sense])
      else Except.error "'sense' doit etre min ou max"

/-- The objective row loop. -/
def objLoop (vars : List (String × VarInfo)) :
    List ObjRow → List (String × PFloat) × List String →
    Except String (List (String × PFloat) × List String)
  | [], st => Except.ok st
  | row :: rows, st =>
    match processObjRow vars st row with
    | Except.ok st2 => objLoop vars rows st2
    | Except.error e => Except.error e

/-- Parse the `objective.csv` / `objectives.csv` table. -/
def parseObjective (vars : List (String × VarInfo)) (rows : List ObjRow) :
    Except String Objective :=
  match objLoop vars rows ([], []) with
  | Except.error e => Except.error e
  | Except.ok (objCoeffs, senses) =>
    if objCoeffs = [] then Except.error "objectif vide"
    else if senses.length ≠ 1 then Except.error "'sense' doit etre constant"
    else Except.ok ⟨senses.headD "", objCoeffs⟩

/-- The `while name in seen_names` loop of the duplicate-name resolver:
try `base#k`, `base#(k+1)`, … .  The fuel `seen.length + 1` used by
`assignName` is enough tries for the loop never to hit the fuel-exhausted
fallback (`freshAux_spec` below). -/
def freshAux (base : String) (seen : List String) : Nat → Nat → String
  | 0, k => base ++ "#" ++ Nat.repr k
  | fuel + 1, k =>
    let cand := base ++ "#" ++ Nat.repr k
    if cand ∈ seen then freshAux base seen fuel (k + 1) else cand

/-- The duplicate-name resolution of the constraint loop: keep a
non-colliding requested name, otherwise append `#2`, `#3`, … until the
name is not in `seen`. -/
def assignName (origName : String) (seen : List String) : String :=
  if origName ∈ seen then freshAux origName seen (seen.length + 1) 2 else origName

/-- The body of the `constraints.csv` row loop (`i` is the 1-based data
line number, starting at 2): derive the requested name (auto-generated
`c_<line>` when blank), deduplicate it, validate the sense and the
right-hand side, parse the expression, check that the referenced variables
are declared, and migrate the parsed constant to the right-hand side. -/
def processConRow (vars : List (String × VarInfo)) (seen : List String)
    (i : Nat) (row : ConRow) : Except String Constraint :=
  let origName0 := pyStripStr row.name
  let origName := if origName0 = "" then "c_" ++ Nat.repr i else origName0
  let name := assignName origName seen
  let sense := pyStripStr row.sense
  if sense = "<=" ∨ sense = ">=" ∨ sense = "==" then
    match parseFloatReq row.rhs with
    | Except.error e => Except.error e
    | Except.ok rhs =>
      match parse_linear_expr row.expr with
      | Except.error e => Except.error e
      | Except.ok (coeffs, constSum) =>
        match coeffs.find? (fun p => (vars.lookup p.1).isNone) with
        | some _ => Except.error "variable utilisee dans expr mais non declaree"
        | none =>
          Except.ok ⟨name, origName, sense, PFloat.sub rhs constSum, coeffs,
            row.expr, rhs, constSum⟩
  else Except.error "sense doit etre <=, >= ou =="

/-- The `constraints.csv` row loop, threading the set of assigned names. -/
def conLoop (vars : List (String × VarInfo)) :
    List (Nat × ConRow) → List String → List Constraint →
    Except String (List Constraint)
  | [], _seen, acc => Except.ok acc
  | (i, row) :: rest, seen, acc =>
    match processConRow vars seen i row with
    | Except.error e => Except.error e
    | Except.ok c => conLoop vars rest (seen ++ [c.name]) (acc ++ [c])

/-- Number a list of records with 1-based line numbers starting at `k`. -/
def enumFrom {α : Type} (k : Nat) : List α → List (Nat × α)
  | [] => []
  | a :: as => (k, a) :: enumFrom (k + 1) as

/-- Parse the `constraints.csv` table. -/
def parseConstraints (vars : List (String × VarInfo)) (rows : List ConRow) :
    Except String (List Constraint) :=
  match conLoop vars (enumFrom 2 rows) [] [] with
  | Except.error e => Except.error e
  | Except.ok cs =>
    if cs = [] then Except.error "aucune contrainte fournie" else Except.ok cs

/-- Model of `parse_data_dir`, from the point where the three tables have been read:
parse the variables, the objective and the constraints, in that order,
aborting at the first `ParseError`. -/
def parse_data_dir (varRows : List VarRow) (objRows : List ObjRow)
    (conRows : List ConRow) : Except String Model :=
  match parseVariables varRows with
  | Except.error e => Except.error e
  | Except.ok vars =>
    match parseObjective vars objRows with
    | Except.error e => Except.error e
    | Except.ok obj =>
      match parseConstraints vars conRows with
      | Except.error e => Except.error e
      | Except.ok cs => Except.ok ⟨vars, obj, cs⟩

example : parseVariables [⟨"x", "0", "10", ""⟩, ⟨"y", "", "", "INTEGER"⟩] =
    Except.ok [("x", ⟨PFloat.fin 0, some (PFloat.fin (mkRat 10 1)), "continuous"⟩),
      ("y", ⟨PFloat.fin 0, none, "integer"⟩)] := by decide
example : isError (parseVariables [⟨"x", "5", "2", ""⟩]) = true := by decide
example : isError (parseVariables [⟨"x", "", "", "real"⟩]) = true := by decide
example : parseVariables [⟨"x", "-inf", "inf", ""⟩] =
    Except.ok [("x", ⟨PFloat.ninf, some PFloat.pinf, "continuous"⟩)] := by decide
example : isError (parseVariables []) = true := by decide
example :
    okValue (parse_data_dir [⟨"x", "0", "10", ""⟩, ⟨"y", "", "", "integer"⟩]
      [⟨"x", "3", "max"⟩, ⟨"y", "2", "MAX"⟩]
      [⟨"c1", "x + y", "<=", "4"⟩]) =
    some ⟨[("x", ⟨PFloat.fin 0, some (PFloat.fin (mkRat 10 1)), "continuous"⟩),
      ("y", ⟨PFloat.fin 0, none, "integer"⟩)],
      ⟨"max", [("x", PFloat.fin (mkRat 3 1)), ("y", PFloat.fin (mkRat 2 1))]⟩,
      [⟨"c1", "c1", "<=", PFloat.fin (mkRat 4 1),
        [("x", PFloat.fin (mkRat 1 1)), ("y", PFloat.fin (mkRat 1 1))],
        "x + y", PFloat.fin (mkRat 4 1), PFloat.fin 0⟩]⟩ := by decide
example :
    okValue (parseConstraints [("x", ⟨PFloat.fin 0, none, "continuous"⟩)]
      [⟨"c", "x", "<=", "1"⟩, ⟨"c", "x", ">=", "0"⟩, ⟨"", "x -1", "==", "2"⟩]) =
    some [⟨"c", "c", "<=", PFloat.fin (mkRat 1 1), [("x", PFloat.fin (mkRat 1 1))],
        "x", PFloat.fin (mkRat 1 1), PFloat.fin 0⟩,
      ⟨"c#2", "c", ">=", PFloat.fin 0, [("x", PFloat.fin (mkRat 1 1))],
        "x", PFloat.fin 0, PFloat.fin 0⟩,
      ⟨"c_4", "c_4", "==", PFloat.fin (mkRat 3 1), [("x", PFloat.fin (mkRat 1 1))],
        "x -1", PFloat.fin (mkRat 2 1), PFloat.fin (mkRat (-1) 1)⟩] := by decide
example : isError (parseConstraints [("x", ⟨PFloat.fin 0, none, "continuous"⟩)]
      [⟨"c", "x", "≤", "1"⟩]) = true := by decide
example : isError (parseConstraints [("x", ⟨PFloat.fin 0, none, "continuous"⟩)]
      [⟨"c", "x + z", "<=", "1"⟩]) = true := by decide

/-! ## `build_model_arrays` (`model_arrays.py`)

In the Python Model dict, `low` is never `None` after parsing and `float()`
is the identity on float values, so the defensive
`float(meta["low"]) if meta["low"] is not None else 0.0` is a plain field
read here; a `KeyError` from `var_index[v]` (impossible for a model
produced by the parser) is modelled as an `Except.error`. -/

/-- The structure `LPModelData`: the array projection handed to the solver. -/
structure LPModelData where
  var_names : List String
  c : List PFloat
  sense : String
  A : List (List PFloat)
  senses : List String
  b : List PFloat
  low : List PFloat
  up : List (Option PFloat)
  vtypes : List String
  constr_names : List String
  var_index : List (String × Nat)
deriving DecidableEq, Repr

/-- Pair each list element with its position, starting at `k`. -/
def indexFrom {α : Type} (k : Nat) : List α → List (α × Nat)
  | [] => []
  | x :: xs => (x, k) :: indexFrom (k + 1) xs

/-- The dictionary `{name: i for i, name in enumerate(var_names)}`. -/
def indexList (l : List String) : List (String × Nat) := indexFrom 0 l

/-- The update `row[var_index[v]] = coef` for every entry of a coefficient mapping,
starting from a zero-initialized row. -/
def setCoeffs (idx : List (String × Nat)) :
    List (String × PFloat) → List PFloat → Except String (List PFloat)
  | [], acc => Except.ok acc
  | (v, coef) :: rest, acc =>
    match idx.lookup v with
    | some i => setCoeffs idx rest (acc.set i coef)
    | none => Except.error "KeyError"

/-- The constraint loop of `build_model_arrays`: one dense row per
constraint. -/
def buildRows (idx : List (String × Nat)) (n : Nat) :
    List Constraint → Except String (List (List PFloat))
  | [] => Except.ok []
  | cst :: rest =>
    match setCoeffs idx cst.coeffs (List.replicate n (PFloat.fin (ratOfNat 0))) with
    | Except.error e => Except.error e
    | Except.ok row =>
      match buildRows idx n rest with
      | Except.error e => Except.error e
      | Except.ok rows => Except.ok (row :: rows)

/-- Model of `build_model_arrays`. -/
def build_model_arrays (m : Model) : Except String LPModelData :=
  let var_names := m.vars.map Prod.fst
  let var_index := indexList var_names
  let n := var_names.length
  let low := m.vars.map (fun p => p.2.low)
  let up := m.vars.map (fun p => p.2.up)
  let vtypes := m.vars.map (fun p => p.2.type)
  let sense := strToLower m.objective.sense
  match setCoeffs var_index m.objective.coeffs (List.replicate n (PFloat.fin (ratOfNat 0))) with
  | Except.error e => Except.error e
  | Except.ok c =>
    match buildRows var_index n m.constraints with
    | Except.error e => Except.error e
    | Except.ok A =>
      Except.ok ⟨var_names, c, sense, A, m.constraints.map (fun cst => cst.sense),
        m.constraints.map (fun cst => cst.rhs), low, up, vtypes,
        m.constraints.map (fun cst => cst.name), var_index⟩

example :
    okValue (build_model_arrays
      ⟨[("x", ⟨PFloat.fin 0, some (PFloat.fin (mkRat 10 1)), "continuous"⟩),
        ("y", ⟨PFloat.fin 0, none, "integer"⟩)],
       ⟨"max", [("x", PFloat.fin (mkRat 3 1)), ("y", PFloat.fin (mkRat 2 1))]⟩,
       [⟨"c1", "c1", "<=", PFloat.fin (mkRat 4 1),
         [("x", PFloat.fin (mkRat 1 1)), ("y", PFloat.fin (mkRat 1 1))],
         "x + y", PFloat.fin (mkRat 4 1), PFloat.fin 0⟩]⟩) =
    some ⟨["x", "y"], [PFloat.fin (mkRat 3 1), PFloat.fin (mkRat 2 1)], "max",
      [[PFloat.fin (mkRat 1 1), PFloat.fin (mkRat 1 1)]], ["<="],
      [PFloat.fin (mkRat 4 1)], [PFloat.fin 0, PFloat.fin 0],
      [some (PFloat.fin (mkRat 10 1)), none], ["continuous", "integer"], ["c1"],
      [("x", 0), ("y", 1)]⟩ := by decide

/-! ## Helper lemmas -/

theorem isNone_false_isSome {α : Type} (o : Option α) (h : o.isNone = false) :
    o.isSome = true := by
  cases o <;> simp_all

/-- C3: of the spec's four expression-parsing examples, three hold but the
first fails: `"2*x + y - 3"` raises ParseError, because the constant term
reaches `float` as the string `"- 3"` (sign separated from the digits by a
space), which Python rejects.  `"-x"` gives `{x: -1}` and constant 0,
`"5"` gives `{}` and constant 5, and `"x - x"` raises ParseError after the
summed coefficient cancels to zero and is dropped with a zero constant. -/
theorem c3_expression_examples :
    isError (parse_linear_expr "2*x + y - 3") = true ∧
    parse_linear_expr "-x" = Except.ok ([("x", PFloat.fin (mkRat (-1) 1))], PFloat.fin 0) ∧
    parse_linear_expr "5" = Except.ok ([], PFloat.fin (mkRat 5 1)) ∧
    isError (parse_linear_expr "x - x") = true := by
  refine ⟨by decide, by decide, by decide, by decide⟩

/-- C10: `_parse_float` raises ParseError exactly when Python `float`
conversion fails (an empty string giving `None` when emptiness is
allowed), so the non-finite spellings `inf`, `-inf` and `nan` are accepted
as variable bounds, objective coefficients and constraint right-hand
sides. -/
theorem c10_parse_float :
    (∀ v, isError (parseFloatReq v) = true ↔ pyFloat v = none) ∧
    (∀ v, v ≠ "" → (isError (parseFloatOpt v) = true ↔ pyFloat v = none)) ∧
    parseFloatOpt "" = Except.ok none ∧
    pyFloat "inf" = some PFloat.pinf ∧
    pyFloat "-inf" = some PFloat.ninf ∧
    pyFloat "nan" = some PFloat.nan ∧
    parseVariables [⟨"x", "-inf", "inf", ""⟩] =
      Except.ok [("x", ⟨PFloat.ninf, some PFloat.pinf, "continuous"⟩)] ∧
    parseVariables [⟨"x", "nan", "nan", ""⟩] =
      Except.ok [("x", ⟨PFloat.nan, some PFloat.nan, "continuous"⟩)] ∧
    parseObjective [("x", ⟨PFloat.fin 0, none, "continuous"⟩)] [⟨"x", "nan", "min"⟩] =
      Except.ok ⟨"min", [("x", PFloat.nan)]⟩ ∧
    parseConstraints [("x", ⟨PFloat.fin 0, none, "continuous"⟩)] [⟨"c", "x", "<=", "inf"⟩] =
      Except.ok [⟨"c", "c", "<=", PFloat.pinf, [("x", PFloat.fin (mkRat 1 1))],
        "x", PFloat.pinf, PFloat.fin 0⟩] := by
  refine ⟨?_, ?_, by decide, by decide, by decide, by decide, by decide, by decide,
    by decide, by decide⟩
  · intro v
    cases h : pyFloat v <;> simp [parseFloatReq, h, isError]
  · intro v hv
    cases h : pyFloat v <;> simp [parseFloatOpt, hv, h, isError]

/-- C10 witness: the characterization applied at the concrete inputs
`"abc"` (rejected) and `"1.5"` (accepted). -/
theorem c10_parse_float_witness :
    ("abc" ≠ "" ∧ (isError (parseFloatOpt "abc") = true ↔ pyFloat "abc" = none)) ∧
    (isError (parseFloatReq "1.5") = true ↔ pyFloat "1.5" = none) :=
  ⟨⟨by decide, c10_parse_float.2.1 "abc" (by decide)⟩, c10_parse_float.1 "1.5"⟩


/-- Structure of a successful `processVarRow`: the bounds parse, the type
is accepted, and the variable is appended to the map. -/
theorem processVarRow_ok (acc : List (String × VarInfo)) (row : VarRow)
    (res : List (String × VarInfo)) (h : processVarRow acc row = Except.ok res) :
    ∃ lowOpt upOpt,
      parseFloatOpt row.low = Except.ok lowOpt ∧
      parseFloatOpt row.up = Except.ok upOpt ∧
      res = acc ++ [(row.name,
        ⟨lowOpt.getD (PFloat.fin (ratOfNat 0)), upOpt,
         if row.type = "" then "continuous" else strToLower row.type⟩)] ∧
      (if row.type = "" then "continuous" else strToLower row.type) ∈ allowedTypes := by
  by_cases h1 : row.name = ""
  · simp [processVarRow, h1] at h
  by_cases h2 : (List.lookup row.name acc).isSome = true
  · simp [processVarRow, h1, h2] at h
  by_cases hm : (if row.type = "" then "continuous" else strToLower row.type) ∈ allowedTypes
  · cases h3 : parseFloatOpt row.low with
    | error e => simp [processVarRow, h1, h2, hm, h3] at h
    | ok lowOpt =>
      cases h4 : parseFloatOpt row.up with
      | error e => simp [processVarRow, h1, h2, hm, h3, h4] at h
      | ok upOpt =>
        cases upOpt with
        | none =>
          simp [processVarRow, h1, h2, hm, h3, h4] at h
          exact ⟨lowOpt, none, rfl, rfl, h.symm, hm⟩
        | some u =>
          by_cases h5 : PFloat.blt u (lowOpt.getD (PFloat.fin (ratOfNat 0))) = true
          · simp [processVarRow, h1, h2, hm, h3, h4, h5] at h
          · simp [processVarRow, h1, h2, hm, h3, h4, h5] at h
            exact ⟨lowOpt, some u, rfl, rfl, h.symm, hm⟩
  · simp [processVarRow, h1, h2, hm] at h

theorem pvr_type_error (acc : List (String × VarInfo)) (row : VarRow)
    (ht : row.type ≠ "") (hmem : strToLower row.type ∉ allowedTypes) :
    isError (processVarRow acc row) = true := by
  by_cases h1 : row.name = ""
  · simp [processVarRow, h1, isError]
  by_cases h2 : (List.lookup row.name acc).isSome = true
  · simp [processVarRow, h1, h2, isError]
  · simp [processVarRow, h1, h2, ht, hmem, isError]

/-- Structure of a successful `processConRow`. -/
theorem processConRow_ok (vars : List (String × VarInfo)) (seen : List String)
    (i : Nat) (row : ConRow) (c : Constraint)
    (h : processConRow vars seen i row = Except.ok c) :
    ∃ rhs coeffs constSum,
      parseFloatReq row.rhs = Except.ok rhs ∧
      parse_linear_expr row.expr = Except.ok (coeffs, constSum) ∧
      coeffs.find? (fun p => (vars.lookup p.1).isNone) = none ∧
      pyStripStr row.sense ∈ (["<=", ">=", "=="] : List String) ∧
      c = ⟨assignName (if pyStripStr row.name = "" then "c_" ++ Nat.repr i
              else pyStripStr row.name) seen,
           (if pyStripStr row.name = "" then "c_" ++ Nat.repr i else pyStripStr row.name),
           pyStripStr row.sense, PFloat.sub rhs constSum, coeffs, row.expr, rhs,
           constSum⟩ := by
  by_cases hs : (pyStripStr row.sense = "<=" ∨ pyStripStr row.sense = ">=" ∨
      pyStripStr row.sense = "==")
  · cases h3 : parseFloatReq row.rhs with
    | error e => simp [processConRow, hs, h3] at h
    | ok rhs =>
      cases h4 : parse_linear_expr row.expr with
      | error e => simp [processConRow, hs, h3, h4] at h
      | ok pr =>
        obtain ⟨coeffs, constSum⟩ := pr
        cases h5 : coeffs.find? (fun p => (vars.lookup p.1).isNone) with
        | some p => simp [processConRow, hs, h3, h4, h5] at h
        | none =>
          simp [processConRow, hs, h3, h4, h5] at h
          exact ⟨rhs, coeffs, constSum, rfl, rfl, h5, by simpa using hs, h.symm⟩
  · simp [processConRow, hs] at h

theorem pcr_sense_error (vars : List (String × VarInfo)) (seen : List String)
    (i : Nat) (row : ConRow)
    (hs : pyStripStr row.sense ∉ (["<=", ">=", "=="] : List String)) :
    isError (processConRow vars seen i row) = true := by
  have hs' : ¬ (pyStripStr row.sense = "<=" ∨ pyStripStr row.sense = ">=" ∨
      pyStripStr row.sense = "==") := by simpa using hs
  simp [processConRow, hs', isError]

/-- C5 counterexample: a variable row whose type field is the spec-listed
synonym `real` raises ParseError, contradicting the claim that the
synonyms are recognized and that no type-field value causes a parse
failure. -/
theorem c5_counterexample :
    isError (parseVariables [⟨"x", "", "", "real"⟩]) = true := by decide

/-- C5 (amended): the parser recognizes only the exact kind names
`continuous`/`integer`/`binary`, case-insensitively; an empty type field
defaults to continuous; every other value (including the synonyms
real/cont/int/bin/bool) raises ParseError. -/
theorem c5_type_recognition :
    (∀ acc (row : VarRow), row.type ≠ "" → strToLower row.type ∉ allowedTypes →
      isError (processVarRow acc row) = true) ∧
    (∀ acc (row : VarRow) res, processVarRow acc row = Except.ok res →
      ∃ info, res = acc ++ [(row.name, info)] ∧
        info.type = (if row.type = "" then "continuous" else strToLower row.type) ∧
        info.type ∈ allowedTypes) := by
  constructor
  · exact pvr_type_error
  · intro acc row res h
    obtain ⟨lowOpt, upOpt, _, _, hres, hmem⟩ := processVarRow_ok acc row res h
    exact ⟨_, hres, rfl, hmem⟩

/-- C5 witness: the amended statement applied at a rejected row (type
`real`) and at an accepted row (type `INTEGER`, stored lower-cased). -/
theorem c5_type_recognition_witness :
    isError (processVarRow [] ⟨"x", "", "", "real"⟩) = true ∧
    (∃ info, [("y", (⟨PFloat.fin 0, none, "integer"⟩ : VarInfo))] =
        [] ++ [(("y" : String), info)] ∧
      info.type = (if ("INTEGER" : String) = "" then "continuous" else strToLower "INTEGER") ∧
      info.type ∈ allowedTypes) :=
  ⟨c5_type_recognition.1 [] ⟨"x", "", "", "real"⟩ (by decide) (by decide),
   c5_type_recognition.2 [] ⟨"y", "", "", "INTEGER"⟩
     [("y", ⟨PFloat.fin 0, none, "integer"⟩)] (by decide)⟩

/-- C6 counterexample: a constraint row whose sense is the Unicode `≤`
raises ParseError, contradicting the claim that the Unicode equivalents of
`<=`/`>=` are accepted. -/
theorem c6_counterexample :
    isError (parseConstraints [("x", ⟨PFloat.fin 0, none, "continuous"⟩)]
      [⟨"c", "x", "≤", "1"⟩]) = true := by decide

/-- C6 (amended): a constraint row's comparison operator is accepted
exactly when the stripped sense field is one of the three ASCII forms
`<=`, `>=`, `==`; anything else — including the Unicode forms `≤`/`≥` —
raises ParseError. -/
theorem c6_sense_recognition :
    (∀ vars seen i (row : ConRow),
      pyStripStr row.sense ∉ (["<=", ">=", "=="] : List String) →
      isError (processConRow vars seen i row) = true) ∧
    (∀ vars seen i (row : ConRow) c, processConRow vars seen i row = Except.ok c →
      c.sense = pyStripStr row.sense ∧
      c.sense ∈ (["<=", ">=", "=="] : List String)) := by
  constructor
  · exact pcr_sense_error
  · intro vars seen i row c h
    obtain ⟨rhs, coeffs, constSum, _, _, _, hsen, hc⟩ :=
      processConRow_ok vars seen i row c h
    subst hc
    exact ⟨rfl, hsen⟩

/-- C6 witness: the amended statement applied at a rejected row (Unicode
`≥`) and at an accepted row (`==`). -/
theorem c6_sense_recognition_witness :
    isError (processConRow [("x", ⟨PFloat.fin 0, none, "continuous"⟩)] [] 2
      ⟨"c", "x", "≥", "1"⟩) = true ∧
    ((⟨"c", "c", "==", PFloat.fin (mkRat 1 1), [("x", PFloat.fin (mkRat 1 1))],
        "x", PFloat.fin (mkRat 1 1), PFloat.fin 0⟩ : Constraint).sense =
      pyStripStr (⟨"c", "x", "==", "1"⟩ : ConRow).sense ∧
     (⟨"c", "c", "==", PFloat.fin (mkRat 1 1), [("x", PFloat.fin (mkRat 1 1))],
        "x", PFloat.fin (mkRat 1 1), PFloat.fin 0⟩ : Constraint).sense ∈
      (["<=", ">=", "=="] : List String)) :=
  ⟨c6_sense_recognition.1 [("x", ⟨PFloat.fin 0, none, "continuous"⟩)] [] 2
     ⟨"c", "x", "≥", "1"⟩ (by decide),
   c6_sense_recognition.2 [("x", ⟨PFloat.fin 0, none, "continuous"⟩)] [] 2
     ⟨"c", "x", "==", "1"⟩ _ (by decide)⟩

/-- C7: a variable row with lower bound 5 and upper bound 2 raises
ParseError; an empty lower-bound field gives lower bound 0; an empty
upper-bound field stores the upper bound as `none` (an explicit absent
marker, not a number). -/
theorem c7_bound_validation :
    isError (parseVariables [⟨"x", "5", "2", ""⟩]) = true ∧
    (∀ acc (row : VarRow) res, processVarRow acc row = Except.ok res →
      ∃ info, res = acc ++ [(row.name, info)] ∧
        (row.low = "" → info.low = PFloat.fin 0) ∧
        (row.up = "" → info.up = none)) := by
  refine ⟨by decide, ?_⟩
  intro acc row res h
  obtain ⟨lowOpt, upOpt, hlow, hup, hres, _⟩ := processVarRow_ok acc row res h
  refine ⟨_, hres, ?_, ?_⟩
  · intro he
    rw [he] at hlow
    simp [parseFloatOpt] at hlow
    simp [← hlow]
    rfl
  · intro he
    rw [he] at hup
    simp [parseFloatOpt] at hup
    simp [← hup]

/-- C7 witness: the record-level statement applied at a row with empty
bound fields. -/
theorem c7_bound_validation_witness :
    ∃ info, [("y", (⟨PFloat.fin 0, none, "continuous"⟩ : VarInfo))] =
        [] ++ [(("y" : String), info)] ∧
      ((⟨"y", "", "", ""⟩ : VarRow).low = "" → info.low = PFloat.fin 0) ∧
      ((⟨"y", "", "", ""⟩ : VarRow).up = "" → info.up = none) :=
  c7_bound_validation.2 [] ⟨"y", "", "", ""⟩
    [("y", ⟨PFloat.fin 0, none, "continuous"⟩)] (by decide)

/-- Any per-constraint property established by `processConRow` holds of
every constraint produced by `conLoop`. -/
theorem conLoop_inv {P : Constraint → Prop} (vars : List (String × VarInfo))
    (hP : ∀ seen i row c, processConRow vars seen i row = Except.ok c → P c) :
    ∀ rows seen acc cs, (∀ c ∈ acc, P c) →
      conLoop vars rows seen acc = Except.ok cs → ∀ c ∈ cs, P c := by
  intro rows
  induction rows with
  | nil =>
    intro seen acc cs hacc h
    simp only [conLoop] at h
    injection h with h2
    rw [← h2]
    exact hacc
  | cons hd tl ih =>
    obtain ⟨i, row⟩ := hd
    intro seen acc cs hacc h
    simp only [conLoop] at h
    cases hpc : processConRow vars seen i row with
    | error e => rw [hpc] at h; simp at h
    | ok c =>
      rw [hpc] at h
      refine ih _ _ _ (fun c' hc' => ?_) h
      rcases List.mem_append.mp hc' with h1 | h2
      · exact hacc _ h1
      · rw [List.mem_singleton.mp h2]
        exact hP _ _ _ _ hpc

/-- Any per-constraint property established by `processConRow` holds of
every constraint returned by `parseConstraints`. -/
theorem parseConstraints_inv {P : Constraint → Prop} (vars : List (String × VarInfo))
    (hP : ∀ seen i row c, processConRow vars seen i row = Except.ok c → P c)
    (rows : List ConRow) (cs : List Constraint)
    (h : parseConstraints vars rows = Except.ok cs) : ∀ c ∈ cs, P c := by
  simp only [parseConstraints] at h
  cases hcl : conLoop vars (enumFrom 2 rows) [] [] with
  | error e => rw [hcl] at h; simp at h
  | ok cs0 =>
    rw [hcl] at h
    by_cases h0 : cs0 = []
    · simp [h0] at h
    · simp [h0] at h
      rw [← h]
      exact conLoop_inv vars hP _ [] [] _ (by simp) hcl

/-- Subtracting a finite float is exact on finite floats (in the
idealized-rational model). -/
theorem PFloat.sub_fin (r mc : ℚ) :
    PFloat.sub (PFloat.fin r) (PFloat.fin mc) = PFloat.fin (r - mc) := by
  simp [PFloat.sub, PFloat.neg, PFloat.add, qadd_eq, qneg_eq, sub_eq_add_neg]

/-- C2: every parsed constraint stores `rhs = raw_rhs − moved_const`,
retains the raw right-hand side and records as `moved_const` exactly the
constant sum returned by linear-expression parsing of its expression; on
finite values the migration is exact, so coefficients plus stored
right-hand side reproduce the original inequality/equality
(`t + moved ≤ raw ↔ t ≤ stored`). -/
theorem c2_constant_migration :
    ∀ vars rows cs, parseConstraints vars rows = Except.ok cs → ∀ c ∈ cs,
      c.rhs = PFloat.sub c.raw_rhs c.moved_const ∧
      parse_linear_expr c.raw_expr = Except.ok (c.coeffs, c.moved_const) ∧
      (∀ r mc : ℚ, c.raw_rhs = PFloat.fin r → c.moved_const = PFloat.fin mc →
        c.rhs = PFloat.fin (r - mc) ∧ (∀ t : ℚ, t + mc ≤ r ↔ t ≤ r - mc)) := by
  intro vars rows cs h
  refine parseConstraints_inv vars ?_ rows cs h
  intro seen i row c hpc
  obtain ⟨rhs, coeffs, constSum, _, hexpr, _, _, hc⟩ :=
    processConRow_ok _ seen i row c hpc
  subst hc
  refine ⟨rfl, hexpr, ?_⟩
  intro r mc hr hmc
  simp only at hr hmc
  subst hr; subst hmc
  exact ⟨PFloat.sub_fin r mc, fun t => le_sub_iff_add_le.symm⟩

/-- C2 witness: the migration equations at the concrete constraint parsed
from expression `"x -1"` with raw right-hand side `2` (stored rhs `3`). -/
theorem c2_constant_migration_witness :
    (⟨"c", "c", "<=", PFloat.fin (mkRat 3 1), [("x", PFloat.fin (mkRat 1 1))],
       "x -1", PFloat.fin (mkRat 2 1), PFloat.fin (mkRat (-1) 1)⟩ : Constraint).rhs =
      PFloat.sub (PFloat.fin (mkRat 2 1)) (PFloat.fin (mkRat (-1) 1)) ∧
    parse_linear_expr "x -1" =
      Except.ok ([("x", PFloat.fin (mkRat 1 1))], PFloat.fin (mkRat (-1) 1)) ∧
    (∀ r mc : ℚ, PFloat.fin (mkRat 2 1) = PFloat.fin r →
      PFloat.fin (mkRat (-1) 1) = PFloat.fin mc →
      PFloat.fin (mkRat 3 1) = PFloat.fin (r - mc) ∧
        (∀ t : ℚ, t + mc ≤ r ↔ t ≤ r - mc)) := by
  have h := c2_constant_migration [("x", ⟨PFloat.fin 0, none, "continuous"⟩)]
    [⟨"c", "x -1", "<=", "2"⟩]
    [⟨"c", "c", "<=", PFloat.fin (mkRat 3 1), [("x", PFloat.fin (mkRat 1 1))],
      "x -1", PFloat.fin (mkRat 2 1), PFloat.fin (mkRat (-1) 1)⟩]
    (by decide)
    ⟨"c", "c", "<=", PFloat.fin (mkRat 3 1), [("x", PFloat.fin (mkRat 1 1))],
      "x -1", PFloat.fin (mkRat 2 1), PFloat.fin (mkRat (-1) 1)⟩
    (List.mem_singleton.mpr rfl)
  exact h

/-- Structure of a successful `processObjRow`: the referenced variable is
declared and its coefficient is appended to the objective map. -/
theorem processObjRow_ok (vars : List (String × VarInfo))
    (st : List (String × PFloat) × List String) (row : ObjRow)
    (st' : List (String × PFloat) × List String)
    (h : processObjRow vars st row = Except.ok st') :
    (vars.lookup row.var).isSome = true ∧
    ∃ coeff, st'.1 = st.1 ++ [(row.var, coeff)] := by
  by_cases h1 : row.var = ""
  · simp [processObjRow, h1] at h
  by_cases h2 : (vars.lookup row.var).isNone = true
  · simp [processObjRow, h1, h2] at h
  have hsome : (vars.lookup row.var).isSome = true :=
    isNone_false_isSome _ (by simpa using h2)
  cases h3 : parseFloatReq row.coeff with
  | error e => simp [processObjRow, h1, h2, h3] at h
  | ok coeff =>
    by_cases h4 : ((if row.sense = "" then "" else strToLower row.sense) = "min" ∨
        (if row.sense = "" then "" else strToLower row.sense) = "max")
    · by_cases h5 : (st.1.lookup row.var).isSome = true
      · simp [processObjRow, h1, h2, h3, h4, h5] at h
      · simp [processObjRow, h1, h2, h3, h4, h5] at h
        exact ⟨hsome, coeff, by rw [← h]⟩
    · simp [processObjRow, h1, h2, h3, h4] at h

/-- A row referencing an undeclared variable makes `processObjRow` fail. -/
theorem processObjRow_undeclared (vars : List (String × VarInfo))
    (st : List (String × PFloat) × List String) (row : ObjRow)
    (hnd : (vars.lookup row.var).isNone = true) :
    isError (processObjRow vars st row) = true := by
  by_cases h1 : row.var = ""
  · simp [processObjRow, h1, isError]
  · simp [processObjRow, h1, hnd, isError]

/-- Every variable in the accumulated objective map of `objLoop` is
declared. -/
theorem objLoop_inv (vars : List (String × VarInfo)) :
    ∀ rows st st', (∀ p ∈ st.1, (vars.lookup p.1).isSome = true) →
      objLoop vars rows st = Except.ok st' →
      ∀ p ∈ st'.1, (vars.lookup p.1).isSome = true := by
  intro rows
  induction rows with
  | nil =>
    intro st st' hst h
    simp only [objLoop] at h
    injection h with h2
    rw [← h2]
    exact hst
  | cons r rest ih =>
    intro st st' hst h
    simp only [objLoop] at h
    cases hpr : processObjRow vars st r with
    | error e => rw [hpr] at h; simp at h
    | ok st2 =>
      rw [hpr] at h
      obtain ⟨hsome, coeff, hsh⟩ := processObjRow_ok vars st r st2 hpr
      refine ih st2 st' (fun p hp => ?_) h
      rw [hsh] at hp
      rcases List.mem_append.mp hp with h1 | h2
      · exact hst _ h1
      · rw [List.mem_singleton.mp h2]
        exact hsome

/-- If some row references an undeclared variable, `objLoop` fails. -/
theorem objLoop_err (vars : List (String × VarInfo)) :
    ∀ rows st, (∃ row ∈ rows, (vars.lookup row.var).isNone = true) →
      isError (objLoop vars rows st) = true := by
  intro rows
  induction rows with
  | nil => intro st hex; simp at hex
  | cons r rest ih =>
    intro st hex
    simp only [objLoop]
    cases hpr : processObjRow vars st r with
    | error e => rfl
    | ok st2 =>
      obtain ⟨row, hmem, hnd⟩ := hex
      rcases List.mem_cons.mp hmem with h1 | h2
      · subst h1
        have := processObjRow_undeclared vars st row hnd
        rw [hpr] at this
        simp [isError] at this
      · exact ih st2 ⟨row, h2, hnd⟩

/-- Every variable in a parsed objective is declared. -/
theorem parseObjective_inv (vars : List (String × VarInfo)) (rows : List ObjRow)
    (obj : Objective) (h : parseObjective vars rows = Except.ok obj) :
    ∀ p ∈ obj.coeffs, (vars.lookup p.1).isSome = true := by
  simp only [parseObjective] at h
  cases hl : objLoop vars rows ([], []) with
  | error e => rw [hl] at h; simp at h
  | ok st =>
    rw [hl] at h
    obtain ⟨coeffs, senses⟩ := st
    by_cases h0 : coeffs = []
    · simp [h0] at h
    · by_cases h1 : senses.length = 1
      · simp [h0, h1] at h
        rw [← h]
        exact objLoop_inv vars rows ([], []) (coeffs, senses) (by simp) hl
      · simp [h0, h1] at h

/-- If some row references an undeclared variable, `parseObjective`
fails. -/
theorem parseObjective_err (vars : List (String × VarInfo)) (rows : List ObjRow)
    (hex : ∃ row ∈ rows, (vars.lookup row.var).isNone = true) :
    isError (parseObjective vars rows) = true := by
  simp only [parseObjective]
  cases hl : objLoop vars rows ([], []) with
  | error e => rfl
  | ok st =>
    have := objLoop_err vars rows ([], []) hex
    rw [hl] at this
    simp [isError] at this

/-- A constraint row whose expression parses with an undeclared variable
in its coefficient map makes `processConRow` fail. -/
theorem processConRow_undeclared (vars : List (String × VarInfo)) (seen : List String)
    (i : Nat) (row : ConRow) (coeffs : List (String × PFloat)) (cst : PFloat)
    (hexpr : parse_linear_expr row.expr = Except.ok (coeffs, cst))
    (p : String × PFloat) (hp : p ∈ coeffs) (hnd : (vars.lookup p.1).isNone = true) :
    isError (processConRow vars seen i row) = true := by
  by_cases hs : (pyStripStr row.sense = "<=" ∨ pyStripStr row.sense = ">=" ∨
      pyStripStr row.sense = "==")
  · cases h3 : parseFloatReq row.rhs with
    | error e => simp [processConRow, hs, h3, isError]
    | ok rhs =>
      cases h5 : coeffs.find? (fun p => (vars.lookup p.1).isNone) with
      | none =>
        have := List.find?_eq_none.mp h5 p hp
        simp [hnd] at this
      | some q => simp [processConRow, hs, h3, hexpr, h5, isError]
  · simp [processConRow, hs, isError]

/-- If some row's expression parses with an undeclared variable, `conLoop`
fails. -/
theorem conLoop_err (vars : List (String × VarInfo)) :
    ∀ (l : List (Nat × ConRow)) seen acc,
      (∃ ir ∈ l, ∃ coeffs cst,
        parse_linear_expr (Prod.snd ir).expr = Except.ok (coeffs, cst) ∧
        ∃ p ∈ coeffs, (vars.lookup p.1).isNone = true) →
      isError (conLoop vars l seen acc) = true := by
  intro l
  induction l with
  | nil => intro seen acc hex; simp at hex
  | cons hd tl ih =>
    obtain ⟨i, row⟩ := hd
    intro seen acc hex
    simp only [conLoop]
    cases hpr : processConRow vars seen i row with
    | error e => rfl
    | ok c =>
      obtain ⟨ir, hmem, coeffs, cst, hexpr, p, hp, hnd⟩ := hex
      rcases List.mem_cons.mp hmem with h1 | h2
      · subst h1
        have := processConRow_undeclared vars seen i row coeffs cst hexpr p hp hnd
        rw [hpr] at this
        simp [isError] at this
      · exact ih _ _ ⟨ir, h2, coeffs, cst, hexpr, p, hp, hnd⟩

/-- Membership in `enumFrom`. -/
theorem mem_enumFrom {α : Type} (a : α) :
    ∀ (l : List α) (k : Nat), a ∈ l → ∃ i, (i, a) ∈ enumFrom k l := by
  intro l
  induction l with
  | nil => intro k h; simp at h
  | cons x xs ih =>
    intro k h
    rcases List.mem_cons.mp h with h1 | h2
    · exact ⟨k, by simp [enumFrom, h1]⟩
    · obtain ⟨i, hi⟩ := ih (k + 1) h2
      exact ⟨i, by simp [enumFrom, hi]⟩

/-- If some row's expression parses with an undeclared variable,
`parseConstraints` fails. -/
theorem parseConstraints_err (vars : List (String × VarInfo)) (rows : List ConRow)
    (hex : ∃ row ∈ rows, ∃ coeffs cst,
      parse_linear_expr row.expr = Except.ok (coeffs, cst) ∧
      ∃ p ∈ coeffs, (vars.lookup p.1).isNone = true) :
    isError (parseConstraints vars rows) = true := by
  simp only [parseConstraints]
  cases hl : conLoop vars (enumFrom 2 rows) [] [] with
  | error e => rfl
  | ok cs =>
    obtain ⟨row, hmem, rest⟩ := hex
    obtain ⟨i, hi⟩ := mem_enumFrom row rows 2 hmem
    have := conLoop_err vars (enumFrom 2 rows) [] [] ⟨(i, row), hi, rest⟩
    rw [hl] at this
    simp [isError] at this

/-- C1: in every successfully parsed model, every variable name in the
objective's coefficient mapping and in any constraint's coefficient
mapping is a declared variable; and whenever (relative to the parsed
variable table) an objective row references an undeclared name, or a
constraint expression parses to a coefficient mapping containing an
undeclared name, `parse_data_dir` raises ParseError. -/
theorem c1_undeclared_variables :
    (∀ varRows objRows conRows m,
      parse_data_dir varRows objRows conRows = Except.ok m →
        (∀ p ∈ m.objective.coeffs, ((m.vars).lookup p.1).isSome = true) ∧
        (∀ c ∈ m.constraints, ∀ p ∈ c.coeffs, ((m.vars).lookup p.1).isSome = true)) ∧
    (∀ varRows objRows conRows vars, parseVariables varRows = Except.ok vars →
      ((∃ row ∈ objRows, (vars.lookup row.var).isNone = true) ∨
       (∃ row ∈ conRows, ∃ coeffs cst,
          parse_linear_expr row.expr = Except.ok (coeffs, cst) ∧
          ∃ p ∈ coeffs, (vars.lookup p.1).isNone = true)) →
      isError (parse_data_dir varRows objRows conRows) = true) := by
  constructor
  · intro vr orr cr m h
    simp only [parse_data_dir] at h
    cases hv : parseVariables vr with
    | error e => rw [hv] at h; simp at h
    | ok vars =>
      rw [hv] at h
      dsimp only at h
      cases ho : parseObjective vars orr with
      | error e => rw [ho] at h; simp at h
      | ok obj =>
        rw [ho] at h
        dsimp only at h
        cases hc : parseConstraints vars cr with
        | error e => rw [hc] at h; simp at h
        | ok cs =>
          rw [hc] at h
          dsimp only at h
          injection h with h2
          subst h2
          constructor
          · exact parseObjective_inv vars orr obj ho
          · refine parseConstraints_inv vars ?_ cr cs hc
            intro seen i row c hpc
            obtain ⟨rhs, coeffs, constSum, _, _, hfind, _, hc2⟩ :=
              processConRow_ok vars seen i row c hpc
            subst hc2
            intro p hp
            have := List.find?_eq_none.mp hfind p hp
            exact isNone_false_isSome _ (by simpa using this)
  · intro vr orr cr vars hv hdis
    simp only [parse_data_dir]
    rw [hv]
    dsimp only
    rcases hdis with hobj | hcon
    · cases ho : parseObjective vars orr with
      | error e => rfl
      | ok obj =>
        have := parseObjective_err vars orr hobj
        rw [ho] at this
        simp [isError] at this
    · cases ho : parseObjective vars orr with
      | error e => rfl
      | ok obj =>
        cases hc : parseConstraints vars cr with
        | error e => rfl
        | ok cs =>
          have := parseConstraints_err vars cr hcon
          rw [hc] at this
          simp [isError] at this

/-- C1 witness: the post-condition at a concrete parsed model, and the
ParseError direction at a concrete input whose objective references the
undeclared variable `z`. -/
theorem c1_undeclared_variables_witness :
    ((∀ p ∈ (⟨[("x", ⟨PFloat.fin 0, none, "continuous"⟩)],
        ⟨"min", [("x", PFloat.fin (mkRat 1 1))]⟩,
        [⟨"c", "c", "<=", PFloat.fin (mkRat 1 1), [("x", PFloat.fin (mkRat 1 1))],
          "x", PFloat.fin (mkRat 1 1), PFloat.fin 0⟩]⟩ : Model).objective.coeffs,
        ((([("x", (⟨PFloat.fin 0, none, "continuous"⟩ : VarInfo))]).lookup p.1).isSome
          = true)) ∧
      (∀ c ∈ (⟨[("x", ⟨PFloat.fin 0, none, "continuous"⟩)],
        ⟨"min", [("x", PFloat.fin (mkRat 1 1))]⟩,
        [⟨"c", "c", "<=", PFloat.fin (mkRat 1 1), [("x", PFloat.fin (mkRat 1 1))],
          "x", PFloat.fin (mkRat 1 1), PFloat.fin 0⟩]⟩ : Model).constraints,
        ∀ p ∈ c.coeffs,
          ((([("x", (⟨PFloat.fin 0, none, "continuous"⟩ : VarInfo))]).lookup p.1).isSome
            = true))) ∧
    isError (parse_data_dir [⟨"x", "", "", ""⟩] [⟨"z", "1", "min"⟩]
      [⟨"c", "x", "<=", "1"⟩]) = true := by
  constructor
  · have h := c1_undeclared_variables.1 [⟨"x", "", "", ""⟩] [⟨"x", "1", "min"⟩]
      [⟨"c", "x", "<=", "1"⟩]
      ⟨[("x", ⟨PFloat.fin 0, none, "continuous"⟩)],
        ⟨"min", [("x", PFloat.fin (mkRat 1 1))]⟩,
        [⟨"c", "c", "<=", PFloat.fin (mkRat 1 1), [("x", PFloat.fin (mkRat 1 1))],
          "x", PFloat.fin (mkRat 1 1), PFloat.fin 0⟩]⟩ (by decide)
    exact h
  · exact c1_undeclared_variables.2 [⟨"x", "", "", ""⟩] [⟨"z", "1", "min"⟩]
      [⟨"c", "x", "<=", "1"⟩] [("x", ⟨PFloat.fin 0, none, "continuous"⟩)] (by decide)
      (Or.inl ⟨⟨"z", "1", "min"⟩, by decide, by decide⟩)

theorem takeWhile_takeWhile_self {q : Char → Bool} :
    ∀ l : List Char, (l.takeWhile q).takeWhile q = l.takeWhile q := by
  intro l
  induction l with
  | nil => rfl
  | cons c cs ih =>
    by_cases hc : q c = true
    · simp [List.takeWhile, hc, ih]
    · simp [List.takeWhile, hc]

theorem dropWhile_takeWhile_self {q : Char → Bool} :
    ∀ l : List Char, (l.takeWhile q).dropWhile q = [] := by
  intro l
  induction l with
  | nil => rfl
  | cons c cs ih =>
    by_cases hc : q c = true
    · simp [List.takeWhile, List.dropWhile, hc, ih]
    · simp [List.takeWhile, List.dropWhile, hc]

/-- Re-running the identifier search on just the prefix and the match
finds the same match, with nothing after it. -/
theorem findId_self :
    ∀ (l p m r : List Char), findId l = some (p, m, r) →
      findId (p ++ m) = some (p, m, []) := by
  intro l
  induction l with
  | nil => intro p m r h; simp [findId] at h
  | cons c cs ih =>
    intro p m r h
    by_cases hc : isIdStart c = true
    · simp [findId, hc] at h
      obtain ⟨hp, hm, hr⟩ := h
      subst hp; subst hm
      simp [findId, hc, takeWhile_takeWhile_self, dropWhile_takeWhile_self]
    · simp only [findId, hc] at h
      simp at h
      cases hf : findId cs with
      | none => rw [hf] at h; simp at h
      | some q =>
        obtain ⟨p', m', r'⟩ := q
        rw [hf] at h
        simp at h
        obtain ⟨hp, hm, hr⟩ := h
        subst hp; subst hm
        have := ih p' m' r' hf
        show findId (c :: (p' ++ m')) = _
        simp [findId, hc, this]

/-- Processing a term only depends on the part of the term up to the end
of the first identifier match. -/
theorem termStep_ignores_rest (t p m r : List Char)
    (coeffs : List (String × PFloat)) (constSum : PFloat)
    (h : findId t = some (p, m, r)) :
    termStep coeffs constSum t = termStep coeffs constSum (p ++ m) := by
  have h2 := findId_self t p m r h
  simp only [termStep, h, h2]

/-- C9: in linear-expression term processing, everything after the first
identifier match is silently ignored: processing a term equals processing
just its prefix-plus-identifier.  In particular `"x*2"` parses as
coefficient 1 for `x` (the trailing `*2` is discarded), and `"1.2e3*a"`
parses as coefficient 1.2 for a variable named `e3` (the exponent marker
is taken as the identifier, `*a` is discarded). -/
theorem c9_trailing_characters_ignored :
    (∀ (t p m r : List Char) coeffs constSum, findId t = some (p, m, r) →
      termStep coeffs constSum t = termStep coeffs constSum (p ++ m)) ∧
    parse_linear_expr "x*2" =
      Except.ok ([("x", PFloat.fin (mkRat 1 1))], PFloat.fin 0) ∧
    parse_linear_expr "1.2e3*a" =
      Except.ok ([("e3", PFloat.fin (mkRat 6 5))], PFloat.fin 0) :=
  ⟨fun t p m r coeffs constSum h => termStep_ignores_rest t p m r coeffs constSum h,
   by decide, by decide⟩

/-- C9 witness: the general statement applied at the concrete term
`"x*2"`, whose identifier match is `x` with prefix empty and rest `*2`. -/
theorem c9_trailing_characters_ignored_witness :
    findId ['x', '*', '2'] = some ([], ['x'], ['*', '2']) ∧
    termStep [] (PFloat.fin 0) ['x', '*', '2'] = termStep [] (PFloat.fin 0) ([] ++ ['x']) :=
  ⟨by decide,
   c9_trailing_characters_ignored.1 ['x', '*', '2'] [] ['x'] ['*', '2'] [] (PFloat.fin 0)
     (by decide)⟩

theorem toDigitsCore_eq_digits :
    ∀ (fuel n : Nat) (ds : List Char), n ≠ 0 → n < 10 ^ fuel →
      Nat.toDigitsCore 10 fuel n ds =
        ((Nat.digits 10 n).map Nat.digitChar).reverse ++ ds := by
  intro fuel
  induction fuel with
  | zero =>
    intro n ds h0 hlt
    simp at hlt
    omega
  | succ f ih =>
    intro n ds h0 hlt
    simp only [Nat.toDigitsCore]
    by_cases h10 : n / 10 = 0
    · rw [if_pos h10]
      rw [Nat.digits_def' (by norm_num : (1:ℕ) < 10) (Nat.pos_of_ne_zero h0)]
      rw [h10]
      simp
    · rw [if_neg h10]
      have h2 : n / 10 < 10 ^ f := by
        have h3 : n < 10 ^ f * 10 := by
          rw [← pow_succ]
          exact hlt
        exact (Nat.div_lt_iff_lt_mul (by norm_num)).mpr h3
      rw [ih (n / 10) (Nat.digitChar (n % 10) :: ds) h10 h2]
      rw [Nat.digits_def' (by norm_num : (1:ℕ) < 10) (Nat.pos_of_ne_zero h0)]
      simp

theorem toDigits_eq_digits (n : Nat) (h0 : n ≠ 0) :
    Nat.toDigits 10 n = ((Nat.digits 10 n).map Nat.digitChar).reverse := by
  have hlt : n < 10 ^ (n + 1) :=
    lt_of_lt_of_le (Nat.lt_pow_self (by norm_num) n)
      (Nat.pow_le_pow_right (by norm_num) (Nat.le_succ n))
  simpa [Nat.toDigits] using toDigitsCore_eq_digits (n + 1) n [] h0 hlt

/-- Decimal decoding, a left inverse of `Nat.repr`. -/
def reprDecode (s : String) : Nat := Nat.ofDigits 10 (s.data.reverse.map digitVal)

theorem digitVal_digitChar : ∀ d, d < 10 → digitVal (Nat.digitChar d) = d := by decide

theorem reprDecode_repr (n : Nat) : reprDecode (Nat.repr n) = n := by
  by_cases h0 : n = 0
  · subst h0
    have h1 : Nat.repr 0 = "0" := rfl
    rw [h1]
    simp [reprDecode, Nat.ofDigits, digitVal]
  · show Nat.ofDigits 10 ((Nat.repr n).data.reverse.map digitVal) = n
    have h1 : (Nat.repr n).data = Nat.toDigits 10 n := rfl
    rw [h1, toDigits_eq_digits n h0, List.reverse_reverse, List.map_map]
    have h2 : (Nat.digits 10 n).map (digitVal ∘ Nat.digitChar) = Nat.digits 10 n := by
      have h3 : ∀ d ∈ Nat.digits 10 n, (digitVal ∘ Nat.digitChar) d = d := by
        intro d hd
        exact digitVal_digitChar d (Nat.digits_lt_base (by norm_num) hd)
      rw [List.map_congr_left h3]
      exact List.map_id _
    rw [h2, Nat.ofDigits_digits]

theorem repr_injective : ∀ a b : Nat, Nat.repr a = Nat.repr b → a = b := by
  intro a b h
  rw [← reprDecode_repr a, h, reprDecode_repr b]

/-- The candidate names `base#j` are pairwise distinct. -/
theorem candName_inj (base : String) (j k : Nat)
    (h : base ++ "#" ++ Nat.repr j = base ++ "#" ++ Nat.repr k) : j = k := by
  have h2 := congrArg String.data h
  simp only [String.data_append, List.append_assoc] at h2
  have h3 := List.append_cancel_left h2
  have h4 := List.append_cancel_left h3
  exact repr_injective j k (congrArg String.mk h4)

/-- Behaviour of the `while name in seen_names` search: if some candidate
within the fuel budget is free, `freshAux` returns the first free
candidate. -/
theorem freshAux_spec (base : String) (seen : List String) :
    ∀ fuel k, (∃ j, j < fuel ∧ (base ++ "#" ++ Nat.repr (k + j)) ∉ seen) →
      ∃ j, j < fuel ∧ freshAux base seen fuel k = base ++ "#" ++ Nat.repr (k + j) ∧
        (base ++ "#" ++ Nat.repr (k + j)) ∉ seen ∧
        ∀ i, i < j → (base ++ "#" ++ Nat.repr (k + i)) ∈ seen := by
  intro fuel
  induction fuel with
  | zero =>
    intro k hex
    obtain ⟨j, hj, _⟩ := hex
    omega
  | succ f ih =>
    intro k hex
    by_cases hc : (base ++ "#" ++ Nat.repr k) ∈ seen
    · obtain ⟨j, hj, hnot⟩ := hex
      have hj0 : j ≠ 0 := by
        rintro rfl
        exact hnot (by simpa using hc)
      obtain ⟨j', rfl⟩ : ∃ j', j = j' + 1 := ⟨j - 1, by omega⟩
      have hex' : ∃ j2, j2 < f ∧ (base ++ "#" ++ Nat.repr ((k + 1) + j2)) ∉ seen :=
        ⟨j', by omega, by rw [show (k + 1) + j' = k + (j' + 1) by omega]; exact hnot⟩
      obtain ⟨j2, hj2, heq, hnotin, hmin⟩ := ih (k + 1) hex'
      refine ⟨j2 + 1, by omega, ?_, ?_, ?_⟩
      · show freshAux base seen (f + 1) k = _
        simp only [freshAux]
        rw [if_pos hc, show k + (j2 + 1) = (k + 1) + j2 by omega]
        exact heq
      · rw [show k + (j2 + 1) = (k + 1) + j2 by omega]
        exact hnotin
      · intro i hi
        cases i with
        | zero => simpa using hc
        | succ i' =>
          rw [show k + (i' + 1) = (k + 1) + i' by omega]
          exact hmin i' (by omega)
    · refine ⟨0, by omega, ?_, by simpa using hc, fun i hi => by omega⟩
      simp only [freshAux]
      rw [if_neg hc]
      simp

/-- Pigeonhole: among `seen.length + 1` distinct candidate names, at least
one is not in `seen`. -/
theorem exists_fresh (base : String) (seen : List String) :
    ∃ j, j < seen.length + 1 ∧ (base ++ "#" ++ Nat.repr (2 + j)) ∉ seen := by
  by_contra hall
  push_neg at hall
  set L := (List.range (seen.length + 1)).map
    (fun j => base ++ "#" ++ Nat.repr (2 + j)) with hL
  have hinj : Function.Injective (fun j => base ++ "#" ++ Nat.repr (2 + j)) := by
    intro j k h
    have := candName_inj base (2 + j) (2 + k) h
    omega
  have hnd : L.Nodup := List.Nodup.map hinj (List.nodup_range _)
  have hsub : ∀ x ∈ L, x ∈ seen := by
    intro x hx
    rw [hL] at hx
    obtain ⟨j, hj, rfl⟩ := List.mem_map.mp hx
    exact hall j (List.mem_range.mp hj)
  have h1 : L.toFinset.card = L.length := List.toFinset_card_of_nodup hnd
  have h2 : L.toFinset ⊆ seen.toFinset := fun x hx =>
    List.mem_toFinset.mpr (hsub x (List.mem_toFinset.mp hx))
  have h3 := Finset.card_le_card h2
  have h4 := seen.toFinset_card_le
  have h5 : L.length = seen.length + 1 := by simp [hL]
  omega

/-- Full behaviour of the constraint-name deduplication: a non-colliding
requested name is kept; a colliding one gets the first free suffix `#k`
with `k ≥ 2`. -/
theorem assignName_spec (base : String) (seen : List String) :
    (base ∉ seen → assignName base seen = base) ∧
    (base ∈ seen → ∃ k, 2 ≤ k ∧
      assignName base seen = base ++ "#" ++ Nat.repr k ∧
      (base ++ "#" ++ Nat.repr k) ∉ seen ∧
      ∀ j, 2 ≤ j → j < k → (base ++ "#" ++ Nat.repr j) ∈ seen) := by
  constructor
  · intro h
    simp [assignName, h]
  · intro h
    have hex : ∃ j, j < seen.length + 1 ∧ (base ++ "#" ++ Nat.repr (2 + j)) ∉ seen :=
      exists_fresh base seen
    obtain ⟨j, hj, heq, hnotin, hmin⟩ := freshAux_spec base seen (seen.length + 1) 2 hex
    refine ⟨2 + j, by omega, ?_, hnotin, ?_⟩
    · simp only [assignName]
      rw [if_pos h]
      exact heq
    · intro i h2i hik
      have := hmin (i - 2) (by omega)
      rw [show 2 + (i - 2) = i by omega] at this
      exact this

/-- The function `assignName` never returns a name already in `seen`. -/
theorem assignName_not_mem (base : String) (seen : List String) :
    assignName base seen ∉ seen := by
  by_cases h : base ∈ seen
  · obtain ⟨k, _, heq, hnotin, _⟩ := (assignName_spec base seen).2 h
    rw [heq]
    exact hnotin
  · rw [(assignName_spec base seen).1 h]
    exact h

/-- The names assigned by the constraint loop are pairwise distinct. -/
theorem conLoop_names (vars : List (String × VarInfo)) :
    ∀ rows seen acc cs,
      (∀ c ∈ acc, c.name ∈ seen) → (acc.map Constraint.name).Nodup →
      conLoop vars rows seen acc = Except.ok cs →
      (cs.map Constraint.name).Nodup := by
  intro rows
  induction rows with
  | nil =>
    intro seen acc cs hseen hnd h
    simp only [conLoop] at h
    injection h with h2
    rw [← h2]
    exact hnd
  | cons hd tl ih =>
    obtain ⟨i, row⟩ := hd
    intro seen acc cs hseen hnd h
    simp only [conLoop] at h
    cases hpc : processConRow vars seen i row with
    | error e => rw [hpc] at h; simp at h
    | ok c =>
      rw [hpc] at h
      obtain ⟨rhs, coeffs, constSum, _, _, _, _, hc⟩ :=
        processConRow_ok vars seen i row c hpc
      have hname : c.name ∉ seen := by
        rw [hc]
        exact assignName_not_mem _ seen
      refine ih (seen ++ [c.name]) (acc ++ [c]) cs ?_ ?_ h
      · intro c' hc'
        rcases List.mem_append.mp hc' with h1 | h2
        · exact List.mem_append_left _ (hseen _ h1)
        · rw [List.mem_singleton.mp h2]
          exact List.mem_append_right _ (by simp)
      · rw [List.map_append]
        refine List.Nodup.append hnd (List.nodup_singleton _) ?_
        intro x hx hx2
        simp at hx2
        subst hx2
        obtain ⟨c'', hc''mem, hc''n⟩ := List.mem_map.mp hx
        exact hname (hc''n ▸ hseen _ hc''mem)

/-- C4: constraint names are made globally unique by the parser itself: a
non-colliding requested name (or auto-generated `c_<line>` name) is kept;
a colliding one deterministically gets the first free suffix `#2`, `#3`, …
(never an error — a concrete three-fold duplicate parses successfully, as
the last conjunct shows); the requested name is preserved in
`original_name`.  (The stderr warning is I/O and outside the embedding.) -/
theorem c4_duplicate_names :
    (∀ base seen, base ∉ seen → assignName base seen = base) ∧
    (∀ base seen, base ∈ seen → ∃ k, 2 ≤ k ∧
      assignName base seen = base ++ "#" ++ Nat.repr k ∧
      (base ++ "#" ++ Nat.repr k) ∉ seen ∧
      ∀ j, 2 ≤ j → j < k → (base ++ "#" ++ Nat.repr j) ∈ seen) ∧
    (∀ vars rows cs, parseConstraints vars rows = Except.ok cs →
      (cs.map Constraint.name).Nodup ∧
      ∀ c ∈ cs, c.name = c.original_name ∨
        ∃ k, 2 ≤ k ∧ c.name = c.original_name ++ "#" ++ Nat.repr k) ∧
    okValue (parseConstraints [("x", ⟨PFloat.fin 0, none, "continuous"⟩)]
      [⟨"c", "x", "<=", "1"⟩, ⟨"c", "x", "<=", "2"⟩, ⟨"c", "x", "<=", "3"⟩]) =
      some [⟨"c", "c", "<=", PFloat.fin (mkRat 1 1), [("x", PFloat.fin (mkRat 1 1))],
              "x", PFloat.fin (mkRat 1 1), PFloat.fin 0⟩,
            ⟨"c#2", "c", "<=", PFloat.fin (mkRat 2 1), [("x", PFloat.fin (mkRat 1 1))],
              "x", PFloat.fin (mkRat 2 1), PFloat.fin 0⟩,
            ⟨"c#3", "c", "<=", PFloat.fin (mkRat 3 1), [("x", PFloat.fin (mkRat 1 1))],
              "x", PFloat.fin (mkRat 3 1), PFloat.fin 0⟩] := by
  refine ⟨fun base seen h => (assignName_spec base seen).1 h,
    fun base seen h => (assignName_spec base seen).2 h, ?_, by decide⟩
  intro vars rows cs h
  constructor
  · simp only [parseConstraints] at h
    cases hcl : conLoop vars (enumFrom 2 rows) [] [] with
    | error e => rw [hcl] at h; simp at h
    | ok cs0 =>
      rw [hcl] at h
      by_cases h0 : cs0 = []
      · simp [h0] at h
      · simp [h0] at h
        rw [← h]
        exact conLoop_names vars _ [] [] cs0 (by simp) (by simp) hcl
  · refine parseConstraints_inv vars ?_ rows cs h
    intro seen i row c hpc
    obtain ⟨rhs, coeffs, constSum, _, _, _, _, hc⟩ :=
      processConRow_ok vars seen i row c hpc
    subst hc
    by_cases horig : (if pyStripStr row.name = "" then "c_" ++ Nat.repr i
        else pyStripStr row.name) ∈ seen
    · obtain ⟨k, hk2, heq, _, _⟩ := (assignName_spec _ seen).2 horig
      exact Or.inr ⟨k, hk2, heq⟩
    · exact Or.inl ((assignName_spec _ seen).1 horig)

/-- C4 witness: the naming rules applied at concrete inputs — a fresh
name is kept, a doubly-taken name gets suffix `#3`, and a concrete
duplicate-laden table parses with names `c`, `c#2`, `c#3`. -/
theorem c4_duplicate_names_witness :
    assignName "a" [] = "a" ∧
    (∃ k, 2 ≤ k ∧ assignName "c" ["c", "c#2"] = "c" ++ "#" ++ Nat.repr k ∧
      ("c" ++ "#" ++ Nat.repr k) ∉ ["c", "c#2"] ∧
      ∀ j, 2 ≤ j → j < k → ("c" ++ "#" ++ Nat.repr j) ∈ ["c", "c#2"]) ∧
    ((([⟨"c", "c", "<=", PFloat.fin (mkRat 1 1), [("x", PFloat.fin (mkRat 1 1))],
          "x", PFloat.fin (mkRat 1 1), PFloat.fin 0⟩,
        ⟨"c#2", "c", "<=", PFloat.fin (mkRat 2 1), [("x", PFloat.fin (mkRat 1 1))],
          "x", PFloat.fin (mkRat 2 1), PFloat.fin 0⟩] : List Constraint).map
        Constraint.name).Nodup ∧
      ∀ c ∈ ([⟨"c", "c", "<=", PFloat.fin (mkRat 1 1), [("x", PFloat.fin (mkRat 1 1))],
          "x", PFloat.fin (mkRat 1 1), PFloat.fin 0⟩,
        ⟨"c#2", "c", "<=", PFloat.fin (mkRat 2 1), [("x", PFloat.fin (mkRat 1 1))],
          "x", PFloat.fin (mkRat 2 1), PFloat.fin 0⟩] : List Constraint),
        c.name = c.original_name ∨
        ∃ k, 2 ≤ k ∧ c.name = c.original_name ++ "#" ++ Nat.repr k) :=
  ⟨c4_duplicate_names.1 "a" [] (by decide),
   c4_duplicate_names.2.1 "c" ["c", "c#2"] (by decide),
   c4_duplicate_names.2.2.1 [("x", ⟨PFloat.fin 0, none, "continuous"⟩)]
     [⟨"c", "x", "<=", "1"⟩, ⟨"c", "x", "<=", "2"⟩]
     [⟨"c", "c", "<=", PFloat.fin (mkRat 1 1), [("x", PFloat.fin (mkRat 1 1))],
        "x", PFloat.fin (mkRat 1 1), PFloat.fin 0⟩,
      ⟨"c#2", "c", "<=", PFloat.fin (mkRat 2 1), [("x", PFloat.fin (mkRat 1 1))],
        "x", PFloat.fin (mkRat 2 1), PFloat.fin 0⟩] (by decide)⟩

theorem indexFrom_map_fst {α : Type} : ∀ (l : List α) (k : Nat),
    (indexFrom k l).map Prod.fst = l := by
  intro l
  induction l with
  | nil => intro k; rfl
  | cons x xs ih => intro k; simp [indexFrom, ih (k + 1)]

theorem indexFrom_map_snd {α : Type} : ∀ (l : List α) (k : Nat),
    (indexFrom k l).map Prod.snd = List.range' k l.length := by
  intro l
  induction l with
  | nil => intro k; rfl
  | cons x xs ih => intro k; simp [indexFrom, ih (k + 1), List.range']

theorem indexFrom_lookup : ∀ (l : List String) (k : Nat) (v : String) (i : Nat),
    (indexFrom k l).lookup v = some i →
    ∃ j, j < l.length ∧ i = k + j ∧ l[j]? = some v := by
  intro l
  induction l with
  | nil => intro k v i h; simp [indexFrom] at h
  | cons x xs ih =>
    intro k v i h
    simp only [indexFrom, List.lookup] at h
    by_cases hv : v = x
    · rw [show (v == x) = true from beq_iff_eq.mpr hv] at h
      injection h with h2
      exact ⟨0, by simp, by omega, by simp [hv]⟩
    · rw [show (v == x) = false from beq_eq_false_iff_ne.mpr hv] at h
      obtain ⟨j, hj, hi, hget⟩ := ih (k + 1) v i h
      exact ⟨j + 1, by simpa using hj, by omega, by simpa using hget⟩

theorem indexFrom_lookup_isSome : ∀ (l : List String) (k : Nat) (v : String),
    v ∈ l → ((indexFrom k l).lookup v).isSome = true := by
  intro l
  induction l with
  | nil => intro k v h; simp at h
  | cons x xs ih =>
    intro k v h
    simp only [indexFrom, List.lookup]
    by_cases hv : v = x
    · rw [show (v == x) = true from beq_iff_eq.mpr hv]
      rfl
    · rw [show (v == x) = false from beq_eq_false_iff_ne.mpr hv]
      exact ih (k + 1) v (List.mem_of_ne_of_mem hv h)

theorem setCoeffs_ok (idx : List (String × Nat)) :
    ∀ (coeffs : List (String × PFloat)) (acc : List PFloat),
      (∀ p ∈ coeffs, (idx.lookup p.1).isSome = true) →
      ∃ res, setCoeffs idx coeffs acc = Except.ok res := by
  intro coeffs
  induction coeffs with
  | nil => intro acc h; exact ⟨acc, rfl⟩
  | cons q rest ih =>
    obtain ⟨v, coef⟩ := q
    intro acc h
    have hs : ((idx.lookup v).isSome) = true := h (v, coef) (by simp)
    cases hl : idx.lookup v with
    | none => rw [hl] at hs; simp at hs
    | some i =>
      obtain ⟨res, hres⟩ := ih (acc.set i coef) (fun p hp => h p (by simp [hp]))
      exact ⟨res, by simp only [setCoeffs, hl]; exact hres⟩

theorem setCoeffs_spec (idx : List (String × Nat)) (S : List (String × PFloat)) :
    ∀ (coeffs : List (String × PFloat)) (acc res : List PFloat),
      setCoeffs idx coeffs acc = Except.ok res → (∀ p ∈ coeffs, p ∈ S) →
      res.length = acc.length ∧
      (∀ j val, res[j]? = some val →
        (acc[j]? = some val ∨ ∃ p ∈ S, idx.lookup p.1 = some j)) := by
  intro coeffs
  induction coeffs with
  | nil =>
    intro acc res h hsub
    simp only [setCoeffs] at h
    injection h with h2
    subst h2
    exact ⟨rfl, fun j val hj => Or.inl hj⟩
  | cons q rest ih =>
    obtain ⟨v, coef⟩ := q
    intro acc res h hsub
    simp only [setCoeffs] at h
    cases hl : idx.lookup v with
    | none => rw [hl] at h; simp at h
    | some i =>
      rw [hl] at h
      obtain ⟨hlen, hjust⟩ := ih (acc.set i coef) res h (fun p hp => hsub p (by simp [hp]))
      refine ⟨by rw [hlen, List.length_set], ?_⟩
      intro j val hj
      rcases hjust j val hj with hset | hS
      · by_cases hij : i = j
        · subst hij
          by_cases hlt : i < acc.length
          · right
            exact ⟨(v, coef), hsub (v, coef) (by simp), hl⟩
          · left
            rw [List.getElem?_set_self' ] at hset
            rw [List.getElem?_eq_none (by simpa using hlt)] at hset
            simp at hset
        · left
          rwa [List.getElem?_set_ne hij] at hset
      · exact Or.inr hS

theorem buildRows_ok (idx : List (String × Nat)) (n : Nat) :
    ∀ (cl : List Constraint),
      (∀ cst ∈ cl, ∀ p ∈ cst.coeffs, (idx.lookup p.1).isSome = true) →
      ∃ rows, buildRows idx n cl = Except.ok rows := by
  intro cl
  induction cl with
  | nil => intro h; exact ⟨[], rfl⟩
  | cons cst rest ih =>
    intro h
    obtain ⟨row, hrow⟩ := setCoeffs_ok idx cst.coeffs
      (List.replicate n (PFloat.fin (ratOfNat 0))) (h cst (by simp))
    obtain ⟨rows, hrows⟩ := ih (fun c hc => h c (by simp [hc]))
    exact ⟨row :: rows, by simp only [buildRows, hrow, hrows]⟩

theorem buildRows_spec (idx : List (String × Nat)) (n : Nat) :
    ∀ (cl : List Constraint) (rows : List (List PFloat)),
      buildRows idx n cl = Except.ok rows →
      rows.length = cl.length ∧
      (∀ (ci : Nat) (row : List PFloat), rows[ci]? = some row →
        ∃ cst2, cl[ci]? = some cst2 ∧
        setCoeffs idx cst2.coeffs (List.replicate n (PFloat.fin (ratOfNat 0))) =
          Except.ok row) := by
  intro cl
  induction cl with
  | nil =>
    intro rows h
    simp only [buildRows] at h
    injection h with h2
    subst h2
    exact ⟨rfl, fun ci row hci => by simp at hci⟩
  | cons cst rest ih =>
    intro rows h
    simp only [buildRows] at h
    cases h1 : setCoeffs idx cst.coeffs (List.replicate n (PFloat.fin (ratOfNat 0))) with
    | error e => rw [h1] at h; simp at h
    | ok row0 =>
      rw [h1] at h
      cases h2 : buildRows idx n rest with
      | error e => rw [h2] at h; simp at h
      | ok rows0 =>
        rw [h2] at h
        injection h with h3
        subst h3
        obtain ⟨hlen, hper⟩ := ih rows0 h2
        refine ⟨by simpa using hlen, ?_⟩
        intro ci row hci
        cases ci with
        | zero =>
          simp at hci
          subst hci
          exact ⟨cst, by simp, h1⟩
        | succ ci' =>
          simp at hci
          obtain ⟨cst', hcst', hsc⟩ := hper ci' row hci
          exact ⟨cst', by simpa using hcst', hsc⟩

/-- C8: for a valid model (distinct variable names, all referenced names
declared), `build_model_arrays` succeeds; the variable index pairs the
names, in insertion order, with `0..count-1`; the objective vector and
every constraint matrix row have length equal to the variable count and,
being zero-initialized, hold a nonzero entry only at the index of a
variable actually referenced by the corresponding coefficient mapping. -/
theorem c8_array_model :
    ∀ m : Model,
      (m.vars.map Prod.fst).Nodup →
      (∀ p ∈ m.objective.coeffs, p.1 ∈ m.vars.map Prod.fst) →
      (∀ c ∈ m.constraints, ∀ p ∈ c.coeffs, p.1 ∈ m.vars.map Prod.fst) →
      ∃ d, build_model_arrays m = Except.ok d ∧
        d.var_names = m.vars.map Prod.fst ∧
        d.var_index.map Prod.fst = m.vars.map Prod.fst ∧
        d.var_index.map Prod.snd = List.range (m.vars.map Prod.fst).length ∧
        d.c.length = (m.vars.map Prod.fst).length ∧
        d.A.length = m.constraints.length ∧
        (∀ row ∈ d.A, row.length = (m.vars.map Prod.fst).length) ∧
        (∀ (j : Nat) (val : PFloat), d.c[j]? = some val →
          val ≠ PFloat.fin (ratOfNat 0) →
          ∃ p ∈ m.objective.coeffs, (m.vars.map Prod.fst)[j]? = some p.1) ∧
        (∀ (ci : Nat) (row : List PFloat) (cst : Constraint),
          d.A[ci]? = some row → m.constraints[ci]? = some cst →
          ∀ (j : Nat) (val : PFloat), row[j]? = some val →
            val ≠ PFloat.fin (ratOfNat 0) →
            ∃ p ∈ cst.coeffs, (m.vars.map Prod.fst)[j]? = some p.1) := by
  intro m hnd hobj hcon
  have hidxSome : ∀ v, v ∈ m.vars.map Prod.fst →
      (((indexList (m.vars.map Prod.fst)).lookup v).isSome) = true :=
    fun v hv => indexFrom_lookup_isSome (m.vars.map Prod.fst) 0 v hv
  obtain ⟨cvec, hcvec⟩ := setCoeffs_ok (indexList (m.vars.map Prod.fst))
    m.objective.coeffs
    (List.replicate (m.vars.map Prod.fst).length (PFloat.fin (ratOfNat 0)))
    (fun p hp => hidxSome p.1 (hobj p hp))
  obtain ⟨A, hA⟩ := buildRows_ok (indexList (m.vars.map Prod.fst))
    (m.vars.map Prod.fst).length m.constraints
    (fun cst hc p hp => hidxSome p.1 (hcon cst hc p hp))
  have hjust : ∀ (v : String) (j : Nat),
      (indexList (m.vars.map Prod.fst)).lookup v = some j →
      (m.vars.map Prod.fst)[j]? = some v := by
    intro v j hl
    obtain ⟨j', hj', hi, hget⟩ := indexFrom_lookup (m.vars.map Prod.fst) 0 v j hl
    rwa [show j = j' by omega]
  obtain ⟨hclen, hcz⟩ := setCoeffs_spec (indexList (m.vars.map Prod.fst))
    m.objective.coeffs m.objective.coeffs _ _ hcvec (fun p hp => hp)
  obtain ⟨hAlen, hAper⟩ := buildRows_spec (indexList (m.vars.map Prod.fst))
    (m.vars.map Prod.fst).length m.constraints A hA
  refine ⟨⟨m.vars.map Prod.fst, cvec, strToLower m.objective.sense, A,
    m.constraints.map (fun cst => cst.sense), m.constraints.map (fun cst => cst.rhs),
    m.vars.map (fun p => p.2.low), m.vars.map (fun p => p.2.up),
    m.vars.map (fun p => p.2.type), m.constraints.map (fun cst => cst.name),
    indexList (m.vars.map Prod.fst)⟩, ?_, rfl, ?_, ?_, ?_, ?_, ?_, ?_, ?_⟩
  · simp only [build_model_arrays]
    rw [hcvec, hA]
  · exact indexFrom_map_fst (m.vars.map Prod.fst) 0
  · rw [show indexList (m.vars.map Prod.fst) = indexFrom 0 (m.vars.map Prod.fst) from rfl,
      indexFrom_map_snd (m.vars.map Prod.fst) 0, List.range_eq_range']
  · rw [hclen, List.length_replicate]
  · exact hAlen
  · intro row hrow
    obtain ⟨ci, hci⟩ := List.mem_iff_getElem?.mp hrow
    obtain ⟨cst2, _, hsc⟩ := hAper ci row hci
    obtain ⟨hlen2, _⟩ := setCoeffs_spec (indexList (m.vars.map Prod.fst))
      cst2.coeffs cst2.coeffs _ _ hsc (fun p hp => hp)
    rw [hlen2, List.length_replicate]
  · intro j val hj hval
    rcases hcz j val hj with hrep | ⟨p, hp, hl⟩
    · rw [List.getElem?_replicate] at hrep
      by_cases hlt : j < (m.vars.map Prod.fst).length
      · rw [if_pos hlt] at hrep
        injection hrep with h2
        exact absurd h2.symm hval
      · rw [if_neg hlt] at hrep
        simp at hrep
    · exact ⟨p, hp, hjust p.1 j hl⟩
  · intro ci row cst hci hcst j val hj hval
    obtain ⟨cst2, hcst2, hsc⟩ := hAper ci row hci
    rw [hcst] at hcst2
    injection hcst2 with h2
    subst h2
    obtain ⟨_, hz⟩ := setCoeffs_spec (indexList (m.vars.map Prod.fst))
      cst.coeffs cst.coeffs _ _ hsc (fun p hp => hp)
    rcases hz j val hj with hrep | ⟨p, hp, hl⟩
    · rw [List.getElem?_replicate] at hrep
      by_cases hlt : j < (m.vars.map Prod.fst).length
      · rw [if_pos hlt] at hrep
        injection hrep with h2
        exact absurd h2.symm hval
      · rw [if_neg hlt] at hrep
        simp at hrep
    · exact ⟨p, hp, hjust p.1 j hl⟩

/-- A small valid model: `x` referenced only by the objective, `y` only by
the constraint. -/
def exampleModel : Model :=
  ⟨[("x", ⟨PFloat.fin 0, some (PFloat.fin (mkRat 10 1)), "continuous"⟩),
    ("y", ⟨PFloat.fin 0, none, "integer"⟩)],
   ⟨"max", [("x", PFloat.fin (mkRat 3 1))]⟩,
   [⟨"c1", "c1", "<=", PFloat.fin (mkRat 4 1), [("y", PFloat.fin (mkRat 1 1))],
     "y", PFloat.fin (mkRat 4 1), PFloat.fin 0⟩]⟩

/-- C8 witness: the array-building guarantees at `exampleModel`. -/
theorem c8_array_model_witness :
    ∃ d, build_model_arrays exampleModel = Except.ok d ∧
      d.var_names = exampleModel.vars.map Prod.fst ∧
      d.var_index.map Prod.fst = exampleModel.vars.map Prod.fst ∧
      d.var_index.map Prod.snd = List.range (exampleModel.vars.map Prod.fst).length ∧
      d.c.length = (exampleModel.vars.map Prod.fst).length ∧
      d.A.length = exampleModel.constraints.length ∧
      (∀ row ∈ d.A, row.length = (exampleModel.vars.map Prod.fst).length) ∧
      (∀ (j : Nat) (val : PFloat), d.c[j]? = some val →
        val ≠ PFloat.fin (ratOfNat 0) →
        ∃ p ∈ exampleModel.objective.coeffs,
          (exampleModel.vars.map Prod.fst)[j]? = some p.1) ∧
      (∀ (ci : Nat) (row : List PFloat) (cst : Constraint),
        d.A[ci]? = some row → exampleModel.constraints[ci]? = some cst →
        ∀ (j : Nat) (val : PFloat), row[j]? = some val →
          val ≠ PFloat.fin (ratOfNat 0) →
          ∃ p ∈ cst.coeffs, (exampleModel.vars.map Prod.fst)[j]? = some p.1) :=
  c8_array_model exampleModel (by decide) (by decide) (by decide)
